import Mathlib

/-!
Verification of the HVPDB storage engine (groups, indexes, WAL, snapshot)
against its natural-language specification.

The Python source is shallowly embedded: Python dicts become association
lists that keep insertion order (Python 3.7+ semantics), Python strings
become lists of code points, bytes become lists of naturals, exceptions
become `Except`.  External libraries that the engine treats as opaque
(msgpack, zstd, AES-GCM, Argon2id, zlib.crc32) are modelled as concrete
computable stand-ins that keep exactly the properties the engine relies
on: serialisation is injective with a computable partial inverse,
encryption succeeds on decryption only when key and AAD match, the
checksum is a deterministic function of the bytes.
-/

set_option maxRecDepth 100000

namespace HVPDB

/-- Bytes of a file are modelled as lists of naturals. -/
abbrev Bytes := List Nat

/-- Python strings are modelled as lists of code points. -/
abbrev Str := List Nat

/-! ## Association lists with Python dict semantics

Python dicts preserve insertion order; assigning to an existing key keeps
its position, assigning a fresh key appends, deleting removes the entry.
-/

/-- Lookup in an association list (Python `d.get(k)` / `d[k]`). -/
def alookup {κ α : Type} [DecidableEq κ] : List (κ × α) → κ → Option α
  | [], _ => none
  | (k, v) :: rest, key => if k = key then some v else alookup rest key

/-- Assignment `d[k] = v` with Python dict semantics: update in place if
the key exists, append otherwise. -/
def aset {κ α : Type} [DecidableEq κ] : List (κ × α) → κ → α → List (κ × α)
  | [], key, val => [(key, val)]
  | (k, v) :: rest, key, val =>
    if k = key then (k, val) :: rest else (k, v) :: aset rest key val

/-- Deletion `del d[k]`. -/
def adel {κ α : Type} [DecidableEq κ] : List (κ × α) → κ → List (κ × α)
  | [], _ => []
  | (k, v) :: rest, key => if k = key then rest else (k, v) :: adel rest key

/-- Key membership `k in d`. -/
def amem {κ α : Type} [DecidableEq κ] (l : List (κ × α)) (key : κ) : Bool :=
  (alookup l key).isSome

theorem alookup_aset_self {κ α : Type} [DecidableEq κ]
    (l : List (κ × α)) (k : κ) (v : α) : alookup (aset l k v) k = some v := by
  induction l with
  | nil => simp [aset, alookup]
  | cons hd tl ih =>
    obtain ⟨k0, v0⟩ := hd
    by_cases h : k0 = k <;> simp [aset, alookup, h, ih]

theorem alookup_aset_ne {κ α : Type} [DecidableEq κ]
    (l : List (κ × α)) (k k2 : κ) (v : α) (h : k ≠ k2) :
    alookup (aset l k v) k2 = alookup l k2 := by
  induction l with
  | nil => simp [aset, alookup, h]
  | cons hd tl ih =>
    obtain ⟨k0, v0⟩ := hd
    by_cases h0 : k0 = k
    · subst h0; simp [aset, alookup, h]
    · simp [aset, alookup, h0, ih]

theorem alookup_eq_none_of_not_mem {κ α : Type} [DecidableEq κ]
    (l : List (κ × α)) (k : κ) (h : k ∉ l.map Prod.fst) :
    alookup l k = none := by
  induction l with
  | nil => simp [alookup]
  | cons hd tl ih =>
    obtain ⟨k0, v0⟩ := hd
    simp only [List.map_cons, List.mem_cons] at h
    push_neg at h
    have hne : k0 ≠ k := fun he => h.1 he.symm
    simp only [alookup, if_neg hne]
    exact ih h.2

theorem alookup_adel_self {κ α : Type} [DecidableEq κ]
    (l : List (κ × α)) (k : κ) (hnd : (l.map Prod.fst).Nodup) :
    alookup (adel l k) k = none := by
  induction l with
  | nil => simp [adel, alookup]
  | cons hd tl ih =>
    obtain ⟨k0, v0⟩ := hd
    simp only [List.map_cons, List.nodup_cons] at hnd
    by_cases h : k0 = k
    · subst h
      simp only [adel, if_pos rfl]
      exact alookup_eq_none_of_not_mem tl k0 hnd.1
    · simp [adel, h, alookup, ih hnd.2]

theorem alookup_adel_ne {κ α : Type} [DecidableEq κ]
    (l : List (κ × α)) (k k2 : κ) (h : k ≠ k2) :
    alookup (adel l k) k2 = alookup l k2 := by
  induction l with
  | nil => simp [adel]
  | cons hd tl ih =>
    obtain ⟨k0, v0⟩ := hd
    by_cases h0 : k0 = k
    · subst h0; simp [adel, alookup, h]
    · simp [adel, alookup, h0, ih]

/-! ## Document values

Documents hold JSON-like values serialised via MsgPack.  Floats are not
used by any verified property and are omitted from the model.
-/

mutual

/-- A JSON-like document value.  Containers are given their own list
types so that decidable equality and structural recursion work smoothly. -/
inductive Value : Type where
  | vnull : Value
  | vbool : Bool → Value
  | vint : Int → Value
  | vstr : Str → Value
  | varr : ValueList → Value
  | vmap : ValueMap → Value
deriving DecidableEq

/-- Array payload of a `Value.varr`. -/
inductive ValueList : Type where
  | nil : ValueList
  | cons : Value → ValueList → ValueList
deriving DecidableEq

/-- Map payload of a `Value.vmap` (key-value pairs in insertion order). -/
inductive ValueMap : Type where
  | nil : ValueMap
  | cons : Str → Value → ValueMap → ValueMap
deriving DecidableEq

end

/-- A document: a Python dict from field names to values, in insertion
order. -/
abbrev Doc := List (Str × Value)

/-- Python `doc.get(k)` as used throughout the engine, where a missing
field and the value `None` are indistinguishable (both compare equal to
`None` and fail every `is not None` test). -/
def pyGet (d : Doc) (k : Str) : Value := (alookup d k).getD Value.vnull

/-! ## Serialisation (MsgPack stand-in)

The engine treats `msgpack.packb` / `msgpack.unpackb` as an opaque
injective serialiser.  The model uses a simple tagged byte encoding with
a computable partial inverse.
-/

mutual

/-- Encode a value (stand-in for the MsgPack encoding of one value). -/
def encV : Value → Bytes
  | .vnull => [0]
  | .vbool b => [1, cond b 1 0]
  | .vint i => if 0 ≤ i then [2, 0, i.toNat] else [2, 1, (-i).toNat]
  | .vstr s => 3 :: s.length :: s
  | .varr l => 4 :: encVL l
  | .vmap m => 5 :: encVM m

/-- Encode an array payload. -/
def encVL : ValueList → Bytes
  | .nil => [0]
  | .cons v tl => 1 :: (encV v ++ encVL tl)

/-- Encode a map payload. -/
def encVM : ValueMap → Bytes
  | .nil => [0]
  | .cons k v tl => 1 :: k.length :: (k ++ encV v ++ encVM tl)

end

mutual

/-- Decode a value; the fuel bounds recursion depth and any fuel at least
the length of the encoded value suffices. -/
def decV : Nat → Bytes → Option (Value × Bytes)
  | 0, _ => none
  | _ + 1, 0 :: rest => some (.vnull, rest)
  | _ + 1, 1 :: b :: rest => some (.vbool (b == 1), rest)
  | _ + 1, 2 :: 0 :: n :: rest => some (.vint (n : Int), rest)
  | _ + 1, 2 :: 1 :: n :: rest => some (.vint (-(n : Int)), rest)
  | _ + 1, 3 :: n :: rest =>
    if n ≤ rest.length then some (.vstr (rest.take n), rest.drop n) else none
  | fuel + 1, 4 :: rest => (decVL fuel rest).map (fun p => (.varr p.1, p.2))
  | fuel + 1, 5 :: rest => (decVM fuel rest).map (fun p => (.vmap p.1, p.2))
  | _ + 1, _ => none

/-- Decode an array payload. -/
def decVL : Nat → Bytes → Option (ValueList × Bytes)
  | 0, _ => none
  | _ + 1, 0 :: rest => some (.nil, rest)
  | fuel + 1, 1 :: rest =>
    (decV fuel rest).bind (fun p =>
      (decVL fuel p.2).map (fun q => (.cons p.1 q.1, q.2)))
  | _ + 1, _ => none

/-- Decode a map payload. -/
def decVM : Nat → Bytes → Option (ValueMap × Bytes)
  | 0, _ => none
  | _ + 1, 0 :: rest => some (.nil, rest)
  | fuel + 1, 1 :: n :: rest =>
    if n ≤ rest.length then
      (decV fuel (rest.drop n)).bind (fun p =>
        (decVM fuel p.2).map (fun q => (.cons (rest.take n) p.1 q.1, q.2)))
    else none
  | _ + 1, _ => none

end

mutual

theorem decV_encV (v : Value) (rest : Bytes) (fuel : Nat)
    (h : (encV v).length ≤ fuel) :
    decV fuel (encV v ++ rest) = some (v, rest) := by
  match v with
  | .vnull =>
    cases fuel with
    | zero => simp [encV] at h
    | succ fuel => simp [encV, decV]
  | .vbool b =>
    cases fuel with
    | zero => simp [encV] at h
    | succ fuel => cases b <;> simp [encV, decV]
  | .vint i =>
    cases fuel with
    | zero =>
      simp only [encV] at h
      split at h <;> simp at h
    | succ fuel =>
      rcases le_or_lt 0 i with hi | hi
      · rw [show encV (Value.vint i) = [2, 0, i.toNat] from by simp [encV, hi]]
        simp [decV, Int.toNat_of_nonneg hi]
      · rw [show encV (Value.vint i) = [2, 1, (-i).toNat] from by
          simp [encV, not_le.mpr hi]]
        simp only [List.cons_append, decV, List.nil_append]
        have h2 : ((-i).toNat : Int) = -i := Int.toNat_of_nonneg (by omega)
        rw [show (-((-i).toNat : Int)) = i by omega]
  | .vstr s =>
    cases fuel with
    | zero => simp [encV] at h
    | succ fuel =>
      simp only [encV, List.cons_append, decV, List.length_append,
        if_pos (Nat.le_add_right s.length rest.length), List.take_left, List.drop_left]
  | .varr l =>
    cases fuel with
    | zero => simp [encV] at h
    | succ fuel =>
      simp only [encV, List.cons_append, decV]
      rw [decVL_encVL l rest fuel (by simp [encV] at h; omega)]
      rfl
  | .vmap m =>
    cases fuel with
    | zero => simp [encV] at h
    | succ fuel =>
      simp only [encV, List.cons_append, decV]
      rw [decVM_encVM m rest fuel (by simp [encV] at h; omega)]
      rfl

theorem decVL_encVL (l : ValueList) (rest : Bytes) (fuel : Nat)
    (h : (encVL l).length ≤ fuel) :
    decVL fuel (encVL l ++ rest) = some (l, rest) := by
  match l with
  | .nil =>
    cases fuel with
    | zero => simp [encVL] at h
    | succ fuel => simp [encVL, decVL]
  | .cons v tl =>
    cases fuel with
    | zero => simp [encVL] at h
    | succ fuel =>
      simp only [encVL, List.cons_append, decVL, List.append_eq, List.append_assoc]
      rw [decV_encV v (encVL tl ++ rest) fuel (by simp [encVL] at h; omega)]
      rw [Option.some_bind]
      rw [decVL_encVL tl rest fuel (by simp [encVL] at h; omega)]
      rfl

theorem decVM_encVM (m : ValueMap) (rest : Bytes) (fuel : Nat)
    (h : (encVM m).length ≤ fuel) :
    decVM fuel (encVM m ++ rest) = some (m, rest) := by
  match m with
  | .nil =>
    cases fuel with
    | zero => simp [encVM] at h
    | succ fuel => simp [encVM, decVM]
  | .cons k v tl =>
    cases fuel with
    | zero => simp [encVM] at h
    | succ fuel =>
      simp only [encVM, List.cons_append, decVM, List.append_eq, List.append_assoc]
      rw [if_pos (by simp)]
      rw [List.drop_left, List.take_left]
      rw [decV_encV v (encVM tl ++ rest) fuel (by simp [encVM] at h; omega)]
      rw [Option.some_bind]
      rw [decVM_encVM tl rest fuel (by simp [encVM] at h; omega)]
      rfl

end

/-- Encode a document (a top-level MsgPack map). -/
def encDoc : Doc → Bytes
  | [] => [0]
  | (k, v) :: tl => 1 :: k.length :: (k ++ encV v ++ encDoc tl)

/-- Decode a document. -/
def decDoc : Nat → Bytes → Option (Doc × Bytes)
  | 0, _ => none
  | _ + 1, 0 :: rest => some ([], rest)
  | fuel + 1, 1 :: n :: rest =>
    if n ≤ rest.length then
      (decV fuel (rest.drop n)).bind (fun p =>
        (decDoc fuel p.2).map (fun q => ((rest.take n, p.1) :: q.1, q.2)))
    else none
  | _ + 1, _ => none

theorem decDoc_encDoc (d : Doc) (rest : Bytes) (fuel : Nat)
    (h : (encDoc d).length ≤ fuel) :
    decDoc fuel (encDoc d ++ rest) = some (d, rest) := by
  induction d generalizing rest fuel with
  | nil =>
    cases fuel with
    | zero => simp [encDoc] at h
    | succ fuel => simp [encDoc, decDoc]
  | cons hd tl ih =>
    obtain ⟨k, v⟩ := hd
    cases fuel with
    | zero => simp [encDoc] at h
    | succ fuel =>
      simp only [encDoc, List.cons_append, decDoc, List.append_eq, List.append_assoc]
      rw [if_pos (by simp)]
      rw [List.drop_left, List.take_left]
      rw [decV_encV v (encDoc tl ++ rest) fuel (by simp [encDoc] at h; omega)]
      rw [Option.some_bind]
      rw [ih rest fuel (by simp [encDoc] at h; omega)]
      rfl

/-- Encode an optional natural (absent dict key vs present). -/
def encON : Option Nat → Bytes
  | none => [0]
  | some n => [1, n]

/-- Decode an optional natural. -/
def decON : Bytes → Option (Option Nat × Bytes)
  | 0 :: rest => some (none, rest)
  | 1 :: n :: rest => some (some n, rest)
  | _ => none

/-- Encode an optional string. -/
def encOS : Option Str → Bytes
  | none => [0]
  | some s => 1 :: s.length :: s

/-- Decode an optional string. -/
def decOS : Bytes → Option (Option Str × Bytes)
  | 0 :: rest => some (none, rest)
  | 1 :: n :: rest =>
    if n ≤ rest.length then some (some (rest.take n), rest.drop n) else none
  | _ => none

/-- Encode an optional document. -/
def encOD : Option Doc → Bytes
  | none => [0]
  | some d => 1 :: encDoc d

/-- Decode an optional document. -/
def decOD (fuel : Nat) : Bytes → Option (Option Doc × Bytes)
  | 0 :: rest => some (none, rest)
  | 1 :: rest => (decDoc fuel rest).map (fun p => (some p.1, p.2))
  | _ => none

theorem decON_encON (o : Option Nat) (rest : Bytes) :
    decON (encON o ++ rest) = some (o, rest) := by
  cases o <;> simp [encON, decON]

theorem decOS_encOS (o : Option Str) (rest : Bytes) :
    decOS (encOS o ++ rest) = some (o, rest) := by
  cases o with
  | none => simp [encOS, decOS]
  | some s =>
    simp only [encOS, List.cons_append, decOS, List.length_append,
      if_pos (Nat.le_add_right s.length rest.length), List.take_left, List.drop_left]

theorem decOD_encOD (o : Option Doc) (rest : Bytes) (fuel : Nat)
    (h : (encOD o).length ≤ fuel) :
    decOD fuel (encOD o ++ rest) = some (o, rest) := by
  cases o with
  | none => simp [encOD, decOD]
  | some d =>
    simp only [encOD, List.cons_append, decOD]
    rw [decDoc_encDoc d rest fuel (by simp [encOD] at h; omega)]
    rfl

/-! ## WAL record payloads

A WAL record is a MsgPack map with keys `seq`, `txn`, `type`, and for
DATA records `op`, `g`, `id`, `d`, `b`, `ts` (`wal.py`).  Replay reads
every key through `.get` with a default, so every field is optional in
the model; the writers always fill the fields they use.  Timestamps are
modelled as naturals (their value never matters to the engine).
-/

/-- A decoded WAL record. -/
structure Entry where
  seq : Option Nat := none
  txn : Option Str := none
  type : Option Str := none
  op : Option Str := none
  g : Option Str := none
  id : Option Str := none
  d : Option Doc := none
  b : Option Doc := none
  ts : Nat := 0
deriving DecidableEq

/-- The byte encoding of a record (stand-in for
`msgpack.packb(entry, use_bin_type=True)`). -/
def packEntry (e : Entry) : Bytes :=
  encON e.seq ++ encOS e.txn ++ encOS e.type ++ encOS e.op ++ encOS e.g ++
    encOS e.id ++ encOD e.d ++ encOD e.b ++ [e.ts]

/-- The inverse of `packEntry` (stand-in for `msgpack.unpackb`); like
`unpackb` it fails when bytes remain after the value. -/
def unpackEntry (bs : Bytes) : Option Entry :=
  (decON bs).bind (fun p1 =>
  (decOS p1.2).bind (fun p2 =>
  (decOS p2.2).bind (fun p3 =>
  (decOS p3.2).bind (fun p4 =>
  (decOS p4.2).bind (fun p5 =>
  (decOS p5.2).bind (fun p6 =>
  (decOD p6.2.length p6.2).bind (fun p7 =>
  (decOD p7.2.length p7.2).bind (fun p8 =>
  match p8.2 with
  | [ts] => some ⟨p1.1, p2.1, p3.1, p4.1, p5.1, p6.1, p7.1, p8.1, ts⟩
  | _ => none))))))))

theorem unpackEntry_packEntry (e : Entry) : unpackEntry (packEntry e) = some e := by
  obtain ⟨seq, txn, type, op, g, id, d, b, ts⟩ := e
  simp only [packEntry, unpackEntry, List.append_assoc]
  rw [decON_encON, Option.some_bind]
  rw [decOS_encOS, Option.some_bind]
  rw [decOS_encOS, Option.some_bind]
  rw [decOS_encOS, Option.some_bind]
  rw [decOS_encOS, Option.some_bind]
  rw [decOS_encOS, Option.some_bind]
  rw [decOD_encOD _ _ _ (by simp), Option.some_bind]
  rw [decOD_encOD _ _ _ (by simp), Option.some_bind]

/-! ## Cryptography and compression stand-ins

`HVPSecurity` wraps Argon2id key derivation and AES-256-GCM
(`security.py`); the WAL and snapshot layers use them as black boxes.
The model keeps their contracts: key derivation is injective in
password, salt and KDF parameters; authenticated encryption decrypts
only under the same key and the same AAD; compression is invertible and
decompression rejects non-streams.  Nonces are modelled as a fixed
12-byte value (`os.urandom(12)` in the source); no verified property
depends on the nonce.
-/

/-- Derive the AEAD key (Argon2id stand-in, injective in all inputs). -/
def deriveKey (pw : Str) (salt : Bytes) (kdfB : Bytes) : Bytes :=
  pw.length :: (pw ++ salt.length :: (salt ++ kdfB))

/-- The fixed model nonce. -/
def nonce0 : Bytes := List.replicate 12 0

/-- AES-GCM encryption stand-in: the ciphertext binds key, AAD and
plaintext; returns (nonce, ciphertext) like `HVPSecurity.encrypt`. -/
def aeadEncrypt (key : Bytes) (aad : Option Bytes) (pt : Bytes) : Bytes × Bytes :=
  (nonce0, key.length :: (key ++ encOS aad ++ pt))

/-- AES-GCM decryption stand-in: succeeds exactly when the ciphertext
was produced under the same key and the same AAD. -/
def aeadDecrypt (key nonce ct : Bytes) (aad : Option Bytes) : Option Bytes :=
  match ct with
  | [] => none
  | n :: rest =>
    if n ≤ rest.length then
      match decOS (rest.drop n) with
      | some (a, pt) => if rest.take n = key ∧ a = aad then some pt else none
      | none => none
    else none

theorem aeadDecrypt_aeadEncrypt (key : Bytes) (aad : Option Bytes) (pt : Bytes)
    (nonce : Bytes) :
    aeadDecrypt key nonce (aeadEncrypt key aad pt).2 aad = some pt := by
  simp only [aeadEncrypt, aeadDecrypt]
  rw [if_pos (by simp)]
  rw [show (key ++ encOS aad ++ pt).drop key.length = encOS aad ++ pt from by
    rw [List.append_assoc, List.drop_left]]
  rw [decOS_encOS]
  rw [show (key ++ encOS aad ++ pt).take key.length = key from by
    rw [List.append_assoc, List.take_left]]
  simp

theorem aeadDecrypt_wrong_key (key key2 : Bytes) (aad aad2 : Option Bytes)
    (pt : Bytes) (nonce : Bytes) (h : key ≠ key2) :
    aeadDecrypt key2 nonce (aeadEncrypt key aad pt).2 aad2 = none := by
  simp only [aeadEncrypt, aeadDecrypt]
  rw [if_pos (by simp)]
  rw [show (key ++ encOS aad ++ pt).drop key.length = encOS aad ++ pt from by
    rw [List.append_assoc, List.drop_left]]
  rw [decOS_encOS]
  rw [show (key ++ encOS aad ++ pt).take key.length = key from by
    rw [List.append_assoc, List.take_left]]
  simp [h]

theorem aeadDecrypt_wrong_aad (key : Bytes) (aad aad2 : Option Bytes)
    (pt : Bytes) (nonce : Bytes) (h : aad ≠ aad2) :
    aeadDecrypt key nonce (aeadEncrypt key aad pt).2 aad2 = none := by
  simp only [aeadEncrypt, aeadDecrypt]
  rw [if_pos (by simp)]
  rw [show (key ++ encOS aad ++ pt).drop key.length = encOS aad ++ pt from by
    rw [List.append_assoc, List.drop_left]]
  rw [decOS_encOS]
  rw [show (key ++ encOS aad ++ pt).take key.length = key from by
    rw [List.append_assoc, List.take_left]]
  simp [h]

/-- Zstd compression stand-in (`cctx.compress`). -/
def zstdCompress (b : Bytes) : Bytes := 0 :: b

/-- Zstd decompression stand-in (`dctx.decompress`); rejects byte
strings that are not compressed streams. -/
def zstdDecompress : Bytes → Option Bytes
  | 0 :: b => some b
  | _ => none

/-- Deterministic checksum stand-in for `zlib.crc32` (already reduced
mod 2^32 like the Python value). -/
def crc32 (b : Bytes) : Nat :=
  b.foldl (fun a d => (a * 131 + d + 1) % 4294967296) 0

/-! ## WAL framing and replay (`wal.py`) -/

/-- Magic bytes `HVPWAL`. -/
def WAL_MAGIC : Bytes := [72, 86, 80, 87, 65, 76]

/-- Magic bytes `HVPDB`. -/
def SNAP_MAGIC : Bytes := [72, 86, 80, 68, 66]

/-- Maximum WAL entry size accepted by replay (64 MiB). -/
def MAX_ENTRY_SIZE : Nat := 64 * 1024 * 1024

/-- Big-endian 2-byte encoding (`to_bytes(2, 'big')`). -/
def beBytes2 (n : Nat) : Bytes := [n / 256 % 256, n % 256]

/-- Big-endian 4-byte encoding (`struct.pack('>I', n)`). -/
def beBytes4 (n : Nat) : Bytes :=
  [n / 16777216 % 256, n / 65536 % 256, n / 256 % 256, n % 256]

/-- Big-endian value of a byte string (`int.from_bytes(b, 'big')`). -/
def beVal (l : Bytes) : Nat := l.foldl (fun a d => a * 256 + d) 0

/-- The record type strings. -/
def tyBEGIN : Str := [66, 69, 71, 73, 78]

/-- The DATA record type string. -/
def tyDATA : Str := [68, 65, 84, 65]

/-- The COMMIT record type string. -/
def tyCOMMIT : Str := [67, 79, 77, 77, 73, 84]

/-- The ROLLBACK record type string. -/
def tyROLLBACK : Str := [82, 79, 76, 76, 66, 65, 67, 75]

/-- The WAL file header: magic, version 2, salt, KDF length, KDF bytes
(`ensure_header` / `_write_header_to_handle`). -/
def walHeader (salt kdfB : Bytes) : Bytes :=
  WAL_MAGIC ++ beBytes2 2 ++ salt ++ beBytes2 kdfB.length ++ kdfB

/-- One WAL frame as written by `_write_entry` / `write_batch`:
CRC32 (4 B, big-endian) ‖ LEN (4 B) ‖ NONCE (12 B) ‖ CIPHERTEXT. -/
def encFrame (key : Bytes) (e : Entry) : Bytes :=
  let compressed := zstdCompress (packEntry e)
  let ct := (aeadEncrypt key none compressed).2
  let payload := nonce0 ++ ct
  beBytes4 (crc32 payload) ++ beBytes4 ct.length ++ payload

/-- Replay processing of one successfully decoded record against the
transaction-isolation buffer (`wal.py` lines 209-231).  Returns the
entries fed to `apply_callback` by this record, and the new buffer. -/
def processEntry (ls : Nat) (e : Entry) (buf : List (Str × List Entry)) :
    List Entry × List (Str × List Entry) :=
  if e.seq.getD 0 ≤ ls then ([], buf)
  else
    match e.txn with
    | none => ([e], buf)
    | some t =>
      if t = [] then ([e], buf)
      else
        let ty := e.type.getD tyDATA
        if ty = tyBEGIN then ([], aset buf t [])
        else if ty = tyDATA then
          ([], aset buf t ((alookup buf t).getD [] ++ [e]))
        else if ty = tyCOMMIT then
          match alookup buf t with
          | some entries => (entries, adel buf t)
          | none => ([], buf)
        else if ty = tyROLLBACK then
          if amem buf t then ([], adel buf t) else ([], buf)
        else ([], buf)

/-- The full decode chain replay applies to one frame payload:
decrypt, decompress, unpack (`wal.py` lines 203-208). -/
def chunkDecode (key : Bytes) (payload : Bytes) : Option Entry :=
  ((aeadDecrypt key (payload.take 12) (payload.drop 12) none).bind
    zstdDecompress).bind unpackEntry

/-- The frame-reading loop of `HVPWAL.replay` (lines 182-234): returns
the sequence of entries fed to `apply_callback`, in call order;
`replayed_count` is its length.  Every break (short read, bad LEN, CRC
mismatch, decryption/decompression/unpack failure) stops the scan.
The loop consumes at least 21 bytes per frame, so any fuel of at least
the number of frames — in particular the byte length of the remainder —
makes the fuel bound unreachable. -/
def replayLoop (key : Bytes) (ls : Nat) : Nat → Bytes →
    List (Str × List Entry) → List Entry
  | 0, _, _ => []
  | fuel + 1, rem, buf =>
    if rem.length < 8 then []
    else
      let flen := beVal ((rem.drop 4).take 4)
      if flen = 0 ∨ flen > MAX_ENTRY_SIZE then []
      else
        let payload := (rem.drop 8).take (12 + flen)
        if payload.length ≠ 12 + flen then []
        else if crc32 payload % 4294967296 ≠ beVal (rem.take 4) % 4294967296 then []
        else
          match chunkDecode key payload with
          | none => []
          | some e =>
            let step := processEntry ls e buf
            step.1 ++ replayLoop key ls fuel (rem.drop (8 + (12 + flen))) step.2

/-- `HVPWAL.replay` on the whole file (header handling, lines 171-181):
returns the sequence of entries fed to `apply_callback`. -/
def replayFile (key : Bytes) (ls : Nat) (file : Bytes) : List Entry :=
  if file.take 6 = WAL_MAGIC then
    if beVal ((file.drop 6).take 2) ≠ 2 then []
    else
      let kdfLen := beVal ((file.drop 24).take 2)
      replayLoop key ls file.length ((file.drop 24).drop (2 + kdfLen)) []
  else replayLoop key ls file.length file []

/-- Replay count returned by `HVPWAL.replay` (`replayed_count` is
incremented exactly once per `apply_callback` call). -/
def replayCount (key : Bytes) (ls : Nat) (file : Bytes) : Nat :=
  (replayFile key ls file).length

/-! ## Frame-level characterisation of replay -/

/-- A byte chunk that replay accepts as one frame and decodes to a
record: correct length bookkeeping, LEN within bounds, CRC match, and a
payload that decrypts, decompresses and unpacks. -/
def GoodChunk (key : Bytes) (c : Bytes) (e : Entry) : Prop :=
  20 < c.length ∧
  c.length = 20 + beVal ((c.drop 4).take 4) ∧
  beVal ((c.drop 4).take 4) ≤ MAX_ENTRY_SIZE ∧
  crc32 (c.drop 8) % 4294967296 = beVal (c.take 4) % 4294967296 ∧
  chunkDecode key (c.drop 8) = some e

/-- A byte string at which replay stops scanning: too short for a frame
header, a LEN of zero or above 64 MiB, a payload shorter than announced,
a CRC mismatch, or a payload whose decryption, decompression or
unpacking fails — the stop conditions of `HVPWAL.replay`. -/
def BadStart (key : Bytes) (bad : Bytes) : Prop :=
  bad.length < 8 ∨
  beVal ((bad.drop 4).take 4) = 0 ∨
  beVal ((bad.drop 4).take 4) > MAX_ENTRY_SIZE ∨
  ((bad.drop 8).take (12 + beVal ((bad.drop 4).take 4))).length ≠
    12 + beVal ((bad.drop 4).take 4) ∨
  crc32 ((bad.drop 8).take (12 + beVal ((bad.drop 4).take 4))) % 4294967296 ≠
    beVal (bad.take 4) % 4294967296 ∨
  chunkDecode key ((bad.drop 8).take (12 + beVal ((bad.drop 4).take 4))) = none

theorem replayLoop_badStart (key : Bytes) (ls fuel : Nat) (bad : Bytes)
    (buf : List (Str × List Entry)) (h : BadStart key bad) :
    replayLoop key ls fuel bad buf = [] := by
  cases fuel with
  | zero => rfl
  | succ fuel =>
    rcases h with h | h | h | h | h | h <;>
      · simp only [replayLoop]
        split <;> first | rfl | simp_all

/-- Replay at the record level: the fold of `processEntry` over a list
of already-decoded records, starting from a given isolation buffer. -/
def replayRecs (ls : Nat) (buf : List (Str × List Entry)) : List Entry → List Entry
  | [] => []
  | e :: rest =>
    let p := processEntry ls e buf
    p.1 ++ replayRecs ls p.2 rest

theorem replayLoop_goodChunk (key : Bytes) (ls fuel : Nat) (c rest : Bytes)
    (e : Entry) (buf : List (Str × List Entry)) (h : GoodChunk key c e) :
    replayLoop key ls (fuel + 1) (c ++ rest) buf =
      (processEntry ls e buf).1 ++
        replayLoop key ls fuel rest (processEntry ls e buf).2 := by
  obtain ⟨h20, hlen, hmax, hcrc, hdec⟩ := h
  have h4 : (4 : Nat) ≤ c.length := by omega
  have h8 : (8 : Nat) ≤ c.length := by omega
  have htake4 : (c ++ rest).take 4 = c.take 4 := List.take_append_of_le_length h4
  have hdt : ((c ++ rest).drop 4).take 4 = (c.drop 4).take 4 := by
    rw [List.drop_append_of_le_length h4]
    exact List.take_append_of_le_length (by simp; omega)
  have hplen : (c.drop 8).length = 12 + beVal ((c.drop 4).take 4) := by
    simp; omega
  have hpay : ((c ++ rest).drop 8).take (12 + beVal ((c.drop 4).take 4)) = c.drop 8 := by
    rw [List.drop_append_of_le_length h8]
    exact List.take_left' hplen
  have hdropall : (c ++ rest).drop (8 + (12 + beVal ((c.drop 4).take 4))) = rest := by
    apply List.drop_left'
    omega
  simp only [replayLoop, hdt, hpay, htake4, hdropall]
  rw [if_neg (by simp; omega)]
  rw [if_neg (by push_neg; constructor <;> omega)]
  rw [if_neg (by rw [hplen]; exact fun hne => hne rfl)]
  rw [if_neg (by rw [hcrc]; exact fun hne => hne rfl)]
  rw [hdec]

theorem replayLoop_frames (key : Bytes) (ls : Nat) (frames : List Bytes)
    (entries : List Entry) (bad : Bytes) (buf : List (Str × List Entry))
    (hfe : List.Forall₂ (GoodChunk key) frames entries)
    (hbad : BadStart key bad) (fuel : Nat) (hfuel : frames.length ≤ fuel) :
    replayLoop key ls fuel (frames.flatten ++ bad) buf = replayRecs ls buf entries := by
  induction hfe generalizing buf fuel with
  | nil =>
    simpa [replayRecs] using replayLoop_badStart key ls fuel bad buf hbad
  | cons hfe htl ih =>
    cases fuel with
    | zero => simp at hfuel
    | succ fuel =>
      simp only [List.flatten_cons, List.append_assoc]
      rw [replayLoop_goodChunk key ls fuel _ _ _ buf hfe]
      rw [ih _ fuel (by simp at hfuel; omega)]
      simp [replayRecs]

theorem crc32_lt (b : Bytes) : crc32 b < 4294967296 := by
  unfold crc32
  suffices h : ∀ (l : List Nat) (a : Nat), a < 4294967296 →
      l.foldl (fun a d => (a * 131 + d + 1) % 4294967296) a < 4294967296 by
    exact h b 0 (by omega)
  intro l
  induction l with
  | nil => intro a ha; simpa using ha
  | cons d tl ih =>
    intro a ha
    exact ih _ (Nat.mod_lt _ (by omega))

theorem beVal_beBytes2 (n : Nat) (h : n < 65536) : beVal (beBytes2 n) = n := by
  simp [beVal, beBytes2]
  omega

theorem beVal_beBytes4 (n : Nat) (h : n < 4294967296) : beVal (beBytes4 n) = n := by
  simp [beVal, beBytes4]
  omega

/-- A frame produced by the WAL writer is accepted by replay and decodes
back to the record, provided the ciphertext length fits the LEN field
bound (always true for real entries: the writer never produces 64 MiB
frames in the verified scenarios). -/
theorem goodChunk_encFrame (key : Bytes) (e : Entry)
    (h : key.length + (packEntry e).length + 3 ≤ MAX_ENTRY_SIZE) :
    GoodChunk key (encFrame key e) e := by
  have hct : ((aeadEncrypt key none (zstdCompress (packEntry e))).2).length =
      key.length + (packEntry e).length + 3 := by
    simp [aeadEncrypt, zstdCompress, encOS]
    omega
  have hmax : key.length + (packEntry e).length + 3 ≤ 67108864 := h
  have hlt : key.length + (packEntry e).length + 3 < 4294967296 := by omega
  have hbe : beVal (beBytes4 ((aeadEncrypt key none (zstdCompress (packEntry e))).2).length) =
      key.length + (packEntry e).length + 3 := by
    rw [hct]; exact beVal_beBytes4 _ hlt
  have hc8 : (encFrame key e).drop 8 =
      nonce0 ++ (aeadEncrypt key none (zstdCompress (packEntry e))).2 := by
    simp only [encFrame]
    apply List.drop_left'
    simp [beBytes4]
  have hc4 : ((encFrame key e).drop 4).take 4 =
      beBytes4 ((aeadEncrypt key none (zstdCompress (packEntry e))).2).length := by
    simp only [encFrame]
    rw [show beBytes4 (crc32 (nonce0 ++ (aeadEncrypt key none (zstdCompress (packEntry e))).2)) ++
        beBytes4 ((aeadEncrypt key none (zstdCompress (packEntry e))).2).length ++
        (nonce0 ++ (aeadEncrypt key none (zstdCompress (packEntry e))).2) =
      beBytes4 (crc32 (nonce0 ++ (aeadEncrypt key none (zstdCompress (packEntry e))).2)) ++
        (beBytes4 ((aeadEncrypt key none (zstdCompress (packEntry e))).2).length ++
        (nonce0 ++ (aeadEncrypt key none (zstdCompress (packEntry e))).2)) from by
      simp [List.append_assoc]]
    rw [List.drop_left' (by simp [beBytes4])]
    exact List.take_append_of_le_length (by simp [beBytes4])
  have htk4 : (encFrame key e).take 4 =
      beBytes4 (crc32 (nonce0 ++ (aeadEncrypt key none (zstdCompress (packEntry e))).2)) := by
    simp only [encFrame]
    exact List.take_append_of_le_length (by simp [beBytes4]) |>.trans
      (by rw [List.take_left' (by simp [beBytes4])])
  refine ⟨?_, ?_, ?_, ?_, ?_⟩
  · simp [encFrame, beBytes4, nonce0, hct]
  · rw [hc4, hbe]
    simp [encFrame, beBytes4, nonce0, hct]
    omega
  · rw [hc4, hbe]
    exact hmax
  · rw [hc8, htk4]
    rw [beVal_beBytes4 _ (crc32_lt _)]
  · rw [hc8]
    simp only [chunkDecode]
    rw [show (nonce0 ++ (aeadEncrypt key none (zstdCompress (packEntry e))).2).take 12 =
      nonce0 from List.take_left' (by simp [nonce0])]
    rw [show (nonce0 ++ (aeadEncrypt key none (zstdCompress (packEntry e))).2).drop 12 =
      (aeadEncrypt key none (zstdCompress (packEntry e))).2 from
      List.drop_left' (by simp [nonce0])]
    rw [aeadDecrypt_aeadEncrypt]
    rw [Option.some_bind]
    simp only [zstdCompress, zstdDecompress]
    rw [Option.some_bind]
    exact unpackEntry_packEntry e

/-- Parsing the WAL header: replay on a file with a well-formed header
scans exactly the bytes after the header. -/
theorem replayFile_walHeader (key : Bytes) (ls : Nat) (salt kdfB T : Bytes)
    (hsalt : salt.length = 16) (hk : kdfB.length < 65536) :
    replayFile key ls (walHeader salt kdfB ++ T) =
      replayLoop key ls (walHeader salt kdfB ++ T).length T [] := by
  have hmagic : (walHeader salt kdfB ++ T).take 6 = WAL_MAGIC := by
    simp only [walHeader, List.append_assoc]
    exact List.take_left' rfl
  have hver : ((walHeader salt kdfB ++ T).drop 6).take 2 = beBytes2 2 := by
    simp only [walHeader, List.append_assoc]
    rw [List.drop_left' (by rfl)]
    exact List.take_left' rfl
  have hdrop24 : (walHeader salt kdfB ++ T).drop 24 =
      beBytes2 kdfB.length ++ (kdfB ++ T) := by
    rw [show walHeader salt kdfB ++ T =
        (WAL_MAGIC ++ beBytes2 2 ++ salt) ++ (beBytes2 kdfB.length ++ (kdfB ++ T)) from by
      simp [walHeader, List.append_assoc]]
    exact List.drop_left' (by simp [WAL_MAGIC, beBytes2, hsalt])
  have hkl : ((walHeader salt kdfB ++ T).drop 24).take 2 = beBytes2 kdfB.length := by
    rw [hdrop24]
    exact List.take_left' rfl
  simp only [replayFile]
  rw [hmagic, if_pos rfl, hver, hkl]
  rw [beVal_beBytes2 _ hk]
  rw [if_neg (by decide)]
  rw [hdrop24]
  rw [show beBytes2 kdfB.length ++ (kdfB ++ T) = (beBytes2 kdfB.length ++ kdfB) ++ T from by
    simp [List.append_assoc]]
  rw [List.drop_left' (by simp [beBytes2]; omega)]

/-- Each accepted frame is at least 21 bytes, so the frame count is
bounded by the byte length. -/
theorem frames_length_le (key : Bytes) (frames : List Bytes) (entries : List Entry)
    (hfe : List.Forall₂ (GoodChunk key) frames entries) :
    frames.length ≤ frames.flatten.length := by
  induction hfe with
  | nil => simp
  | cons hg htl ih =>
    simp only [List.length_cons, List.flatten_cons, List.length_append]
    have := hg.1
    omega

/-- C9: `HVPWAL.replay` is a total function of the WAL bytes — the loop
never raises — and it stops scanning, without reading further, at the
first frame whose LEN field is zero or greater than 64 MiB, whose
payload is shorter than announced, whose stored CRC does not match the
CRC32 of NONCE ‖ CIPHERTEXT, or whose payload fails to decrypt,
decompress or unpack; the applied records (and hence the returned
count) are exactly those produced by the frames before that point, and
the bytes at and after the bad frame contribute nothing. -/
theorem wal_replay_stops_at_first_bad_frame (key : Bytes) (ls : Nat)
    (salt kdfB : Bytes) (frames : List Bytes) (entries : List Entry) (bad : Bytes)
    (hsalt : salt.length = 16) (hk : kdfB.length < 65536)
    (hfe : List.Forall₂ (GoodChunk key) frames entries) (hbad : BadStart key bad) :
    replayFile key ls (walHeader salt kdfB ++ (frames.flatten ++ bad)) =
      replayRecs ls [] entries ∧
    replayFile key ls (walHeader salt kdfB ++ frames.flatten) =
      replayRecs ls [] entries ∧
    replayCount key ls (walHeader salt kdfB ++ (frames.flatten ++ bad)) =
      (replayRecs ls [] entries).length := by
  have hcount := frames_length_le key frames entries hfe
  have h1 : replayFile key ls (walHeader salt kdfB ++ (frames.flatten ++ bad)) =
      replayRecs ls [] entries := by
    rw [replayFile_walHeader key ls salt kdfB _ hsalt hk]
    apply replayLoop_frames key ls frames entries bad [] hfe hbad
    simp only [List.length_append]
    omega
  have h2 : replayFile key ls (walHeader salt kdfB ++ frames.flatten) =
      replayRecs ls [] entries := by
    rw [replayFile_walHeader key ls salt kdfB _ hsalt hk]
    rw [show frames.flatten = frames.flatten ++ [] from by simp]
    apply replayLoop_frames key ls frames entries [] [] hfe (Or.inl (by simp))
    simp only [List.length_append]
    omega
  exact ⟨h1, h2, by rw [replayCount, h1]⟩

/-- A concrete WAL record used to witness the replay theorems. -/
def e0w : Entry :=
  { seq := some 1, txn := some [116], type := some tyDATA, op := some [105],
    g := some [103], id := some [100], d := some [([97], Value.vint 5)],
    b := none, ts := 0 }

theorem wal_replay_stops_witness :
    (List.replicate 16 0 : Bytes).length = 16 ∧
    ([7] : Bytes).length < 65536 ∧
    List.Forall₂ (GoodChunk [9]) [encFrame [9] e0w] [e0w] ∧
    BadStart [9] [1, 2, 3] ∧
    replayFile [9] 0 (walHeader (List.replicate 16 0) [7] ++
      ([encFrame [9] e0w].flatten ++ [1, 2, 3])) = replayRecs 0 [] [e0w] := by
  have hfe : List.Forall₂ (GoodChunk [9]) [encFrame [9] e0w] [e0w] :=
    List.Forall₂.cons (by unfold GoodChunk; decide) List.Forall₂.nil
  have hbad : BadStart [9] [1, 2, 3] := Or.inl (by decide)
  exact ⟨by decide, by decide, hfe, hbad,
    (wal_replay_stops_at_first_bad_frame [9] 0 (List.replicate 16 0) [7]
      [encFrame [9] e0w] [e0w] [1, 2, 3] (by decide) (by decide) hfe hbad).1⟩

/-! ## Transaction isolation: which records reach the apply callback

`commits` is the spec-side lookahead: scanning forward, the first BEGIN,
COMMIT or ROLLBACK record of transaction `t` that survives the sequence
filter decides the fate of everything `t` has buffered; DATA records and
records of unknown type do not decide it.  `specApplied` restates, per
record position, which records replay feeds to the callback.
-/

/-- Does the forward scan commit transaction `t`?  True iff the first
BEGIN/COMMIT/ROLLBACK record for `t` with seq above the threshold is a
COMMIT. -/
def commits (ls : Nat) (t : Str) : List Entry → Bool
  | [] => false
  | e :: rest =>
    if ls < e.seq.getD 0 ∧ e.txn = some t then
      if e.type.getD tyDATA = tyCOMMIT then true
      else if e.type.getD tyDATA = tyBEGIN ∨ e.type.getD tyDATA = tyROLLBACK then false
      else commits ls t rest
    else commits ls t rest

/-- Spec-side description of one record position: the record is applied
iff it survives the sequence filter and either has no (or an empty)
transaction id — the legacy path, applied immediately — or is a DATA
record of a transaction whose next BEGIN/COMMIT/ROLLBACK record in the
remainder of the log is a COMMIT. -/
def specHead (ls : Nat) (e : Entry) (rest : List Entry) : List Entry :=
  if e.seq.getD 0 ≤ ls then []
  else if e.txn = none ∨ e.txn = some [] then [e]
  else if e.type.getD tyDATA = tyDATA ∧ commits ls (e.txn.getD []) rest then [e]
  else []

/-- Spec-side description of the applied records, in log order. -/
def specApplied (ls : Nat) : List Entry → List Entry
  | [] => []
  | e :: rest => specHead ls e rest ++ specApplied ls rest

theorem mem_specHead (ls : Nat) (r : Entry) (rest : List Entry) (e : Entry) :
    e ∈ specHead ls r rest ↔
      e = r ∧ ls < r.seq.getD 0 ∧
        (r.txn = none ∨ r.txn = some [] ∨
          ∃ t, r.txn = some t ∧ t ≠ [] ∧ r.type.getD tyDATA = tyDATA ∧
            commits ls t rest = true) := by
  unfold specHead
  by_cases hseq : r.seq.getD 0 ≤ ls
  · rw [if_pos hseq]
    simp only [List.not_mem_nil, false_iff]
    rintro ⟨rfl, hlt, -⟩
    omega
  · rw [if_neg hseq]
    by_cases hleg : r.txn = none ∨ r.txn = some []
    · rw [if_pos hleg]
      simp only [List.mem_singleton]
      constructor
      · rintro rfl
        exact ⟨rfl, by omega, hleg.elim Or.inl (fun h => Or.inr (Or.inl h))⟩
      · rintro ⟨rfl, -, -⟩
        rfl
    · rw [if_neg hleg]
      push_neg at hleg
      obtain ⟨t, ht⟩ : ∃ t, r.txn = some t := by
        cases hx : r.txn with
        | none => exact absurd hx hleg.1
        | some t => exact ⟨t, rfl⟩
      have htne : t ≠ [] := fun h => hleg.2 (h ▸ ht)
      by_cases hc : r.type.getD tyDATA = tyDATA ∧ commits ls (r.txn.getD []) rest = true
      · rw [if_pos (by exact ⟨hc.1, hc.2⟩)]
        simp only [List.mem_singleton]
        constructor
        · rintro rfl
          refine ⟨rfl, by omega, Or.inr (Or.inr ⟨t, ht, htne, hc.1, ?_⟩)⟩
          have := hc.2
          rw [ht] at this
          simpa using this
        · rintro ⟨rfl, -, -⟩
          rfl
      · rw [if_neg (by exact fun hk => hc ⟨hk.1, hk.2⟩)]
        simp only [List.not_mem_nil, false_iff]
        rintro ⟨rfl, -, hcond⟩
        rcases hcond with hx | hx | ⟨t2, ht2, -, hd2, hcm2⟩
        · exact hleg.1 hx
        · exact hleg.2 hx
        · apply hc
          refine ⟨hd2, ?_⟩
          rw [ht] at ht2 ⊢
          have ht2e : t = t2 := Option.some.inj ht2
          subst ht2e
          simpa using hcm2

/-- Membership in `specApplied` unfolds to the claim shape: a split of
the log at the record, the sequence condition, and either the legacy
condition or the DATA-and-next-stopper-is-COMMIT condition. -/
theorem mem_specApplied (ls : Nat) (rs : List Entry) (e : Entry) :
    e ∈ specApplied ls rs ↔
      ∃ xs ys, rs = xs ++ e :: ys ∧ ls < e.seq.getD 0 ∧
        (e.txn = none ∨ e.txn = some [] ∨
          ∃ t, e.txn = some t ∧ t ≠ [] ∧ e.type.getD tyDATA = tyDATA ∧
            commits ls t ys = true) := by
  induction rs with
  | nil =>
    simp only [specApplied, List.not_mem_nil, false_iff]
    rintro ⟨xs, ys, hsplit, -⟩
    exact absurd hsplit (by simp)
  | cons r rest ih =>
    simp only [specApplied, List.mem_append]
    constructor
    · intro hmem
      rcases hmem with hmem | hmem
      · obtain ⟨rfl, hseq, hcond⟩ := (mem_specHead ls r rest e).mp hmem
        exact ⟨[], rest, rfl, hseq, hcond⟩
      · obtain ⟨xs, ys, hsplit, hrest⟩ := ih.mp hmem
        exact ⟨r :: xs, ys, by rw [hsplit]; rfl, hrest⟩
    · rintro ⟨xs, ys, hsplit, hseq, hcond⟩
      match xs with
      | [] =>
        rw [List.nil_append] at hsplit
        injection hsplit with h1 h2
        subst h1
        subst h2
        exact Or.inl ((mem_specHead ls _ _ _).mpr ⟨rfl, hseq, hcond⟩)
      | x :: xs =>
        simp only [List.cons_append, List.cons.injEq] at hsplit
        obtain ⟨rfl, hsplit⟩ := hsplit
        exact Or.inr (ih.mpr ⟨xs, ys, hsplit, hseq, hcond⟩)

theorem map_fst_aset {κ α : Type} [DecidableEq κ] (l : List (κ × α)) (k : κ) (v : α) :
    (aset l k v).map Prod.fst =
      if k ∈ l.map Prod.fst then l.map Prod.fst else l.map Prod.fst ++ [k] := by
  induction l with
  | nil => simp [aset]
  | cons hd tl ih =>
    obtain ⟨k0, v0⟩ := hd
    by_cases h : k0 = k
    · subst h
      simp [aset]
    · have hk : ¬k = k0 := fun he => h he.symm
      simp only [aset, if_neg h, List.map_cons, ih]
      by_cases hm : k ∈ tl.map Prod.fst
      · simp [hm, hk]
      · simp [hm, hk]

theorem nodup_aset {κ α : Type} [DecidableEq κ] (l : List (κ × α)) (k : κ) (v : α)
    (h : (l.map Prod.fst).Nodup) : ((aset l k v).map Prod.fst).Nodup := by
  rw [map_fst_aset]
  split
  · exact h
  · next hm => simp [List.nodup_append, h, hm]

theorem mem_aset {κ α : Type} [DecidableEq κ] (l : List (κ × α)) (k : κ) (v : α)
    (p : κ × α) (h : p ∈ aset l k v) : p ∈ l ∨ p = (k, v) := by
  induction l with
  | nil =>
    simp only [aset, List.mem_singleton] at h
    exact Or.inr h
  | cons hd tl ih =>
    obtain ⟨k0, v0⟩ := hd
    by_cases h0 : k0 = k
    · subst h0
      simp only [aset, if_pos rfl] at h
      cases h with
      | head => right; rfl
      | tail _ h1 => left; exact List.mem_cons_of_mem _ h1
    · simp only [aset, if_neg h0] at h
      cases h with
      | head => left; exact List.mem_cons_self _ _
      | tail _ h1 =>
        rcases ih h1 with h2 | h2
        · exact Or.inl (List.mem_cons_of_mem _ h2)
        · exact Or.inr h2

theorem adel_sublist {κ α : Type} [DecidableEq κ] (l : List (κ × α)) (k : κ) :
    (adel l k).Sublist l := by
  induction l with
  | nil => simp [adel]
  | cons hd tl ih =>
    obtain ⟨k0, v0⟩ := hd
    by_cases h : k0 = k
    · simp only [adel, if_pos h]
      exact List.sublist_cons_self _ _
    · simp only [adel, if_neg h]
      exact ih.cons₂ _

theorem nodup_adel {κ α : Type} [DecidableEq κ] (l : List (κ × α)) (k : κ)
    (h : (l.map Prod.fst).Nodup) : ((adel l k).map Prod.fst).Nodup :=
  h.sublist ((adel_sublist l k).map Prod.fst)

theorem mem_adel {κ α : Type} [DecidableEq κ] (l : List (κ × α)) (k : κ)
    (p : κ × α) (h : p ∈ adel l k) : p ∈ l :=
  (adel_sublist l k).mem h

theorem alookup_mem {κ α : Type} [DecidableEq κ] (l : List (κ × α)) (k : κ) (v : α)
    (h : alookup l k = some v) : (k, v) ∈ l := by
  induction l with
  | nil => simp [alookup] at h
  | cons hd tl ih =>
    obtain ⟨k0, v0⟩ := hd
    by_cases h0 : k0 = k
    · subst h0
      have h2 : v0 = v := by simpa [alookup] using h
      subst h2
      exact List.mem_cons_self _ _
    · simp only [alookup, if_neg h0] at h
      exact List.mem_cons_of_mem _ (ih h)

/-! ### Unfolding helpers for processEntry, commits and specHead -/

theorem processEntry_skip (ls : Nat) (e : Entry) (buf : List (Str × List Entry))
    (h : e.seq.getD 0 ≤ ls) : processEntry ls e buf = ([], buf) := by
  simp [processEntry, h]

theorem processEntry_legacy (ls : Nat) (e : Entry) (buf : List (Str × List Entry))
    (h : ls < e.seq.getD 0) (hx : e.txn = none ∨ e.txn = some []) :
    processEntry ls e buf = ([e], buf) := by
  rcases hx with hx | hx <;>
    · simp only [processEntry, hx]
      rw [if_neg (by omega)]
      all_goals simp

theorem processEntry_begin (ls : Nat) (e : Entry) (buf : List (Str × List Entry))
    (s : Str) (h : ls < e.seq.getD 0) (hx : e.txn = some s) (hs : s ≠ [])
    (hty : e.type.getD tyDATA = tyBEGIN) :
    processEntry ls e buf = ([], aset buf s []) := by
  simp only [processEntry, hx, hty]
  rw [if_neg (by omega)]
  simp [hs]

theorem processEntry_data (ls : Nat) (e : Entry) (buf : List (Str × List Entry))
    (s : Str) (h : ls < e.seq.getD 0) (hx : e.txn = some s) (hs : s ≠ [])
    (hty : e.type.getD tyDATA = tyDATA) :
    processEntry ls e buf = ([], aset buf s ((alookup buf s).getD [] ++ [e])) := by
  simp only [processEntry, hx, hty]
  rw [if_neg (by omega)]
  simp [hs, tyDATA, tyBEGIN]

theorem processEntry_commit_some (ls : Nat) (e : Entry) (buf : List (Str × List Entry))
    (s : Str) (l : List Entry) (h : ls < e.seq.getD 0) (hx : e.txn = some s)
    (hs : s ≠ []) (hty : e.type.getD tyDATA = tyCOMMIT) (halk : alookup buf s = some l) :
    processEntry ls e buf = (l, adel buf s) := by
  simp only [processEntry, hx, hty]
  rw [if_neg (by omega)]
  simp [hs, halk, tyDATA, tyBEGIN, tyCOMMIT]

theorem processEntry_commit_none (ls : Nat) (e : Entry) (buf : List (Str × List Entry))
    (s : Str) (h : ls < e.seq.getD 0) (hx : e.txn = some s)
    (hs : s ≠ []) (hty : e.type.getD tyDATA = tyCOMMIT) (halk : alookup buf s = none) :
    processEntry ls e buf = ([], buf) := by
  simp only [processEntry, hx, hty]
  rw [if_neg (by omega)]
  simp [hs, halk, tyDATA, tyBEGIN, tyCOMMIT]

theorem processEntry_rollback (ls : Nat) (e : Entry) (buf : List (Str × List Entry))
    (s : Str) (h : ls < e.seq.getD 0) (hx : e.txn = some s)
    (hs : s ≠ []) (hty : e.type.getD tyDATA = tyROLLBACK) :
    processEntry ls e buf =
      ([], if amem buf s then adel buf s else buf) := by
  simp only [processEntry, hx, hty]
  rw [if_neg (by omega)]
  simp only [if_neg hs]
  rw [if_neg (by decide), if_neg (by decide), if_neg (by decide)]
  by_cases hm : amem buf s
  · simp [hm]
  · simp [hm]

theorem processEntry_other (ls : Nat) (e : Entry) (buf : List (Str × List Entry))
    (s : Str) (h : ls < e.seq.getD 0) (hx : e.txn = some s) (hs : s ≠ [])
    (hty1 : e.type.getD tyDATA ≠ tyBEGIN) (hty2 : e.type.getD tyDATA ≠ tyDATA)
    (hty3 : e.type.getD tyDATA ≠ tyCOMMIT) (hty4 : e.type.getD tyDATA ≠ tyROLLBACK) :
    processEntry ls e buf = ([], buf) := by
  simp only [processEntry, hx]
  rw [if_neg (by omega)]
  simp [hs, hty1, hty2, hty3, hty4]

theorem commits_cons_skip (ls : Nat) (t : Str) (e : Entry) (rest : List Entry)
    (h : ¬(ls < e.seq.getD 0 ∧ e.txn = some t)) :
    commits ls t (e :: rest) = commits ls t rest := by
  simp only [commits, if_neg h]

theorem commits_cons_commit (ls : Nat) (t : Str) (e : Entry) (rest : List Entry)
    (h1 : ls < e.seq.getD 0) (h2 : e.txn = some t)
    (hty : e.type.getD tyDATA = tyCOMMIT) :
    commits ls t (e :: rest) = true := by
  simp only [commits, if_pos (And.intro h1 h2), if_pos hty]

theorem commits_cons_stop (ls : Nat) (t : Str) (e : Entry) (rest : List Entry)
    (h1 : ls < e.seq.getD 0) (h2 : e.txn = some t)
    (hty : e.type.getD tyDATA = tyBEGIN ∨ e.type.getD tyDATA = tyROLLBACK) :
    commits ls t (e :: rest) = false := by
  have hne : e.type.getD tyDATA ≠ tyCOMMIT := by
    rcases hty with hty | hty <;> rw [hty] <;> decide
  simp only [commits, if_pos (And.intro h1 h2), if_neg hne, if_pos hty]

theorem commits_cons_pass (ls : Nat) (t : Str) (e : Entry) (rest : List Entry)
    (hty1 : e.type.getD tyDATA ≠ tyCOMMIT)
    (hty2 : ¬(e.type.getD tyDATA = tyBEGIN ∨ e.type.getD tyDATA = tyROLLBACK)) :
    commits ls t (e :: rest) = commits ls t rest := by
  by_cases h : ls < e.seq.getD 0 ∧ e.txn = some t
  · simp only [commits, if_pos h, if_neg hty1, if_neg hty2]
  · simp only [commits, if_neg h]

theorem specHead_skip (ls : Nat) (e : Entry) (rest : List Entry)
    (h : e.seq.getD 0 ≤ ls) : specHead ls e rest = [] := by
  simp [specHead, h]

theorem specHead_legacy (ls : Nat) (e : Entry) (rest : List Entry)
    (h : ls < e.seq.getD 0) (hx : e.txn = none ∨ e.txn = some []) :
    specHead ls e rest = [e] := by
  unfold specHead
  rw [if_neg (by omega), if_pos hx]

theorem specHead_txn (ls : Nat) (e : Entry) (rest : List Entry) (s : Str)
    (h : ls < e.seq.getD 0) (hx : e.txn = some s) (hs : s ≠ []) :
    specHead ls e rest =
      if e.type.getD tyDATA = tyDATA ∧ commits ls s rest then [e] else [] := by
  unfold specHead
  rw [if_neg (by omega), if_neg (by simp [hx, hs]), hx]
  rfl

theorem specHead_subset (ls : Nat) (e : Entry) (rest : List Entry) :
    specHead ls e rest = [] ∨ specHead ls e rest = [e] := by
  unfold specHead
  split
  · exact Or.inl rfl
  · split
    · exact Or.inr rfl
    · split
      · exact Or.inr rfl
      · exact Or.inl rfl

theorem filter_specHead_ne (ls : Nat) (e : Entry) (rest : List Entry)
    (P : Entry → Bool) (hP : P e = false) :
    (specHead ls e rest).filter P = [] := by
  rcases specHead_subset ls e rest with h | h <;> simp [h, hP]

/-- The per-transaction content of the applied sequence, generalised
over the starting buffer: the records of transaction `t` fed to the
callback are the buffered ones (if the forward scan commits `t`)
followed by exactly the spec-side applied records of `t`, in order. -/
theorem filter_replayRecs (ls : Nat) (t : Str) (ht : t ≠ []) (rs : List Entry) :
    ∀ (buf : List (Str × List Entry)),
      (buf.map Prod.fst).Nodup →
      (∀ p ∈ buf, p.1 ≠ [] ∧ ∀ e ∈ p.2, e.txn = some p.1) →
      (replayRecs ls buf rs).filter (fun e => e.txn == some t) =
        (if commits ls t rs then (alookup buf t).getD [] else []) ++
          (specApplied ls rs).filter (fun e => e.txn == some t) := by
  induction rs with
  | nil =>
    intro buf hnd hinv
    simp [replayRecs, specApplied, commits]
  | cons r rest ih =>
    intro buf hnd hinv
    have hstep : replayRecs ls buf (r :: rest) =
        (processEntry ls r buf).1 ++ replayRecs ls (processEntry ls r buf).2 rest := rfl
    rw [hstep, List.filter_append]
    simp only [specApplied, List.filter_append]
    by_cases hseq : r.seq.getD 0 ≤ ls
    · rw [processEntry_skip ls r buf hseq,
        commits_cons_skip ls t r rest (by rintro ⟨h1, -⟩; omega),
        specHead_skip ls r rest hseq]
      simpa using ih buf hnd hinv
    · push_neg at hseq
      rcases hxc : r.txn with _ | s
      · -- legacy record without txn id: applied immediately, never of txn t
        rw [processEntry_legacy ls r buf hseq (Or.inl hxc),
          commits_cons_skip ls t r rest (by rintro ⟨-, h2⟩; rw [hxc] at h2; cases h2),
          specHead_legacy ls r rest hseq (Or.inl hxc)]
        have hPr : (r.txn == some t) = false := by rw [hxc]; rfl
        rw [ih buf hnd hinv]
        simp [hPr]
      · by_cases hse : s = []
        · -- legacy record with empty txn id
          subst hse
          rw [processEntry_legacy ls r buf hseq (Or.inr hxc),
            commits_cons_skip ls t r rest
              (by rintro ⟨-, h2⟩; rw [hxc] at h2; injection h2 with h2; exact ht h2.symm),
            specHead_legacy ls r rest hseq (Or.inr hxc)]
          have hPr : (r.txn == some t) = false := by
            rw [hxc]
            exact beq_eq_false_iff_ne.mpr (fun h => ht (Option.some.inj h).symm)
          rw [ih buf hnd hinv]
          simp [hPr]
        · by_cases hty1 : r.type.getD tyDATA = tyBEGIN
          · -- BEGIN: reset the txn buffer
            rw [processEntry_begin ls r buf s hseq hxc hse hty1]
            have hsh : specHead ls r rest = [] := by
              rw [specHead_txn ls r rest s hseq hxc hse]
              exact if_neg (fun hk => by rw [hty1] at hk; exact absurd hk.1 (by decide))
            rw [hsh]
            have hinv2 : ∀ p ∈ aset buf s ([] : List Entry),
                p.1 ≠ [] ∧ ∀ e ∈ p.2, e.txn = some p.1 := by
              intro p hp
              rcases mem_aset _ _ _ _ hp with h | h
              · exact hinv p h
              · rw [h]; exact ⟨hse, by simp⟩
            by_cases hst : s = t
            · subst hst
              rw [commits_cons_stop ls s r rest hseq hxc (Or.inl hty1)]
              rw [ih (aset buf s []) (nodup_aset _ _ _ hnd) hinv2]
              rw [alookup_aset_self]
              simp
            · rw [commits_cons_skip ls t r rest
                (by rintro ⟨-, h2⟩; rw [hxc] at h2; injection h2 with h2; exact hst h2)]
              rw [ih (aset buf s []) (nodup_aset _ _ _ hnd) hinv2]
              rw [alookup_aset_ne _ _ _ _ hst]
              simp
          · by_cases hty2 : r.type.getD tyDATA = tyDATA
            · -- DATA: append to the txn buffer
              rw [processEntry_data ls r buf s hseq hxc hse hty2]
              have hcp : commits ls t (r :: rest) = commits ls t rest :=
                commits_cons_pass ls t r rest
                  (by rw [hty2]; decide) (by rw [hty2]; decide)
              rw [hcp]
              have hold : ∀ e2 ∈ (alookup buf s).getD [], e2.txn = some s := by
                cases halk : alookup buf s with
                | none => simp
                | some l =>
                  intro e2 he2
                  exact (hinv (s, l) (alookup_mem _ _ _ halk)).2 e2 (by simpa using he2)
              have hinv2 : ∀ p ∈ aset buf s ((alookup buf s).getD [] ++ [r]),
                  p.1 ≠ [] ∧ ∀ e ∈ p.2, e.txn = some p.1 := by
                intro p hp
                rcases mem_aset _ _ _ _ hp with h | h
                · exact hinv p h
                · rw [h]
                  refine ⟨hse, fun e2 he2 => ?_⟩
                  rcases List.mem_append.mp he2 with h2 | h2
                  · exact hold e2 h2
                  · rw [List.mem_singleton.mp h2, hxc]
              rw [ih (aset buf s _) (nodup_aset _ _ _ hnd) hinv2]
              rw [specHead_txn ls r rest s hseq hxc hse]
              by_cases hst : s = t
              · subst hst
                rw [alookup_aset_self]
                have hPr : (r.txn == some s) = true := by rw [hxc]; simp
                by_cases hcm : commits ls s rest
                · rw [if_pos (And.intro hty2 hcm), if_pos hcm, if_pos hcm]
                  simp [hPr]
                · rw [if_neg (show ¬(r.type.getD tyDATA = tyDATA ∧
                      commits ls s rest = true) from fun hk => hcm hk.2),
                    if_neg hcm, if_neg hcm]
                  rfl
              · rw [alookup_aset_ne _ _ _ _ hst]
                have hPr : (r.txn == some t) = false := by
                  rw [hxc]
                  exact beq_eq_false_iff_ne.mpr (fun h => hst (Option.some.inj h))
                have hfr : (if r.type.getD tyDATA = tyDATA ∧ commits ls s rest = true
                    then [r] else []).filter (fun e => e.txn == some t) = [] := by
                  split <;> simp [hPr]
                rw [hfr]
                simp
            · by_cases hty3 : r.type.getD tyDATA = tyCOMMIT
              · -- COMMIT: dump the txn buffer to the callback
                have hsh : specHead ls r rest = [] := by
                  rw [specHead_txn ls r rest s hseq hxc hse]
                  exact if_neg (fun hk => hty2 hk.1)
                rw [hsh]
                by_cases hst : s = t
                · subst hst
                  rw [commits_cons_commit ls s r rest hseq hxc hty3]
                  cases halk : alookup buf s with
                  | some l =>
                    rw [processEntry_commit_some ls r buf s l hseq hxc hse hty3 halk]
                    have hl : ∀ e2 ∈ l, e2.txn = some s :=
                      (hinv (s, l) (alookup_mem _ _ _ halk)).2
                    have hfl : l.filter (fun e => e.txn == some s) = l :=
                      List.filter_eq_self.mpr (fun a ha => by rw [hl a ha]; simp)
                    rw [hfl]
                    rw [ih (adel buf s) (nodup_adel _ _ hnd)
                      (fun p hp => hinv p (mem_adel _ _ _ hp))]
                    rw [alookup_adel_self _ _ hnd]
                    simp
                  | none =>
                    rw [processEntry_commit_none ls r buf s hseq hxc hse hty3 halk]
                    rw [ih buf hnd hinv]
                    simp [halk]
                · rw [commits_cons_skip ls t r rest
                    (by rintro ⟨-, h2⟩; rw [hxc] at h2; injection h2 with h2; exact hst h2)]
                  cases halk : alookup buf s with
                  | some l =>
                    rw [processEntry_commit_some ls r buf s l hseq hxc hse hty3 halk]
                    have hl : ∀ e2 ∈ l, e2.txn = some s :=
                      (hinv (s, l) (alookup_mem _ _ _ halk)).2
                    have hfl : l.filter (fun e => e.txn == some t) = [] := by
                      rw [List.filter_eq_nil_iff]
                      intro a ha
                      rw [hl a ha]
                      simp only [beq_iff_eq, Option.some.injEq]
                      exact fun h => hst h
                    rw [hfl]
                    rw [ih (adel buf s) (nodup_adel _ _ hnd)
                      (fun p hp => hinv p (mem_adel _ _ _ hp))]
                    rw [alookup_adel_ne _ _ _ hst]
                    simp
                  | none =>
                    rw [processEntry_commit_none ls r buf s hseq hxc hse hty3 halk]
                    rw [ih buf hnd hinv]
                    simp
              · by_cases hty4 : r.type.getD tyDATA = tyROLLBACK
                · -- ROLLBACK: drop the txn buffer
                  rw [processEntry_rollback ls r buf s hseq hxc hse hty4]
                  have hsh : specHead ls r rest = [] := by
                    rw [specHead_txn ls r rest s hseq hxc hse]
                    exact if_neg (fun hk => hty2 hk.1)
                  rw [hsh]
                  by_cases hst : s = t
                  · subst hst
                    rw [commits_cons_stop ls s r rest hseq hxc (Or.inr hty4)]
                    by_cases hm : amem buf s
                    · rw [if_pos hm]
                      rw [ih (adel buf s) (nodup_adel _ _ hnd)
                        (fun p hp => hinv p (mem_adel _ _ _ hp))]
                      rw [alookup_adel_self _ _ hnd]
                      simp
                    · rw [if_neg hm]
                      rw [ih buf hnd hinv]
                      have halk : alookup buf s = none := by
                        unfold amem at hm
                        cases h : alookup buf s with
                        | none => rfl
                        | some l => rw [h] at hm; simp at hm
                      rw [halk]
                      simp
                  · rw [commits_cons_skip ls t r rest
                      (by rintro ⟨-, h2⟩; rw [hxc] at h2; injection h2 with h2; exact hst h2)]
                    by_cases hm : amem buf s
                    · rw [if_pos hm]
                      rw [ih (adel buf s) (nodup_adel _ _ hnd)
                        (fun p hp => hinv p (mem_adel _ _ _ hp))]
                      rw [alookup_adel_ne _ _ _ hst]
                      simp
                    · rw [if_neg hm]
                      rw [ih buf hnd hinv]
                      simp
                · -- unknown record type: ignored entirely
                  rw [processEntry_other ls r buf s hseq hxc hse hty1 hty2 hty3 hty4]
                  have hcp : commits ls t (r :: rest) = commits ls t rest :=
                    commits_cons_pass ls t r rest hty3 (by
                      rintro (h | h)
                      · exact hty1 h
                      · exact hty4 h)
                  rw [hcp]
                  have hsh : specHead ls r rest = [] := by
                    rw [specHead_txn ls r rest s hseq hxc hse]
                    exact if_neg (fun hk => hty2 hk.1)
                  rw [hsh]
                  rw [ih buf hnd hinv]
                  simp

/-- C1 (amended): for a WAL whose readable prefix decodes to `entries`,
the DATA records of a (non-empty-id) transaction `t` fed to the apply
callback are exactly — in order and with their multiplicity — those DATA
records of `t`, with seq above the replay threshold, whose next
BEGIN/COMMIT/ROLLBACK record for `t` (again above the threshold, and
before any unreadable frame) is a COMMIT; records of transactions with
no such COMMIT, or whose next such record is a ROLLBACK or a BEGIN, are
never fed.  The second conjunct restates the spec-side description as
the split-at-the-record condition. -/
theorem replay_feeds_data_iff_committed
    (key : Bytes) (ls : Nat) (salt kdfB : Bytes) (frames : List Bytes)
    (entries : List Entry) (t : Str)
    (hsalt : salt.length = 16) (hk : kdfB.length < 65536)
    (hfe : List.Forall₂ (GoodChunk key) frames entries) (ht : t ≠ []) :
    (replayFile key ls (walHeader salt kdfB ++ frames.flatten)).filter
        (fun e => e.txn == some t) =
      (specApplied ls entries).filter (fun e => e.txn == some t) ∧
    (∀ e : Entry, e ∈ specApplied ls entries ↔
      ∃ xs ys, entries = xs ++ e :: ys ∧ ls < e.seq.getD 0 ∧
        (e.txn = none ∨ e.txn = some [] ∨
          ∃ s, e.txn = some s ∧ s ≠ [] ∧ e.type.getD tyDATA = tyDATA ∧
            commits ls s ys = true)) := by
  constructor
  · have h2 := (wal_replay_stops_at_first_bad_frame key ls salt kdfB frames entries []
      hsalt hk hfe (Or.inl (by simp))).2.1
    rw [h2]
    have h3 := filter_replayRecs ls t ht entries [] (by simp) (by simp)
    simpa [alookup] using h3
  · exact fun e => mem_specApplied ls entries e

/-- The witnessing transaction id. -/
def tw : Str := [116]

/-- The witnessing WAL key. -/
def keyw : Bytes := [9]

/-- The witnessing snapshot/WAL salt. -/
def saltw : Bytes := List.replicate 16 0

/-- First DATA record of the counterexample log. -/
def d1w : Entry :=
  { seq := some 1, txn := some tw, type := some tyDATA, op := some [105],
    g := some [103], id := some [97], d := some [([120], Value.vint 1)],
    b := none, ts := 0 }

/-- The BEGIN record of the counterexample log. -/
def bw : Entry := { seq := some 2, txn := some tw, type := some tyBEGIN, ts := 0 }

/-- Second DATA record of the counterexample log. -/
def d2w : Entry :=
  { seq := some 3, txn := some tw, type := some tyDATA, op := some [105],
    g := some [103], id := some [98], d := some [([120], Value.vint 2)],
    b := none, ts := 0 }

/-- The COMMIT record of the counterexample log. -/
def cw : Entry := { seq := some 4, txn := some tw, type := some tyCOMMIT, ts := 0 }

theorem replay_feeds_data_witness :
    (saltw.length = 16 ∧ ([7] : Bytes).length < 65536 ∧ tw ≠ []) ∧
    (replayFile keyw 0 (walHeader saltw [7] ++
        [encFrame keyw d2w, encFrame keyw cw].flatten)).filter
        (fun e => e.txn == some tw) =
      (specApplied 0 [d2w, cw]).filter (fun e => e.txn == some tw) := by
  refine ⟨⟨by decide, by decide, by decide⟩, ?_⟩
  exact (replay_feeds_data_iff_committed keyw 0 saltw [7]
    [encFrame keyw d2w, encFrame keyw cw] [d2w, cw] tw (by decide) (by decide)
    (List.Forall₂.cons (by unfold GoodChunk; decide)
      (List.Forall₂.cons (by unfold GoodChunk; decide) List.Forall₂.nil))
    (by decide)).1

/-- C1 as frozen is false on the code: in the log
DATA(seq 1, txn t) ‖ BEGIN(2, t) ‖ DATA(3, t) ‖ COMMIT(4, t), every
frame is readable, a readable COMMIT record for `t` appears after the
first DATA record, and no ROLLBACK record occurs anywhere — yet replay
feeds only the second DATA record to the callback: the intervening
BEGIN resets the transaction buffer and silently drops the first DATA
record. -/
theorem replay_iff_commit_counterexample :
    replayFile keyw 0 (walHeader saltw [7] ++
        (encFrame keyw d1w ++ (encFrame keyw bw ++ (encFrame keyw d2w ++
          encFrame keyw cw)))) = [d2w] ∧
    d1w ≠ d2w ∧ d1w.type = some tyDATA ∧ cw.type = some tyCOMMIT ∧
    d1w.txn = some tw ∧ cw.txn = some tw ∧
    (∀ e ∈ [d1w, bw, d2w, cw], e.type ≠ some tyROLLBACK) := by
  refine ⟨by decide, by decide, by decide, by decide, by decide, by decide, by decide⟩

/-! ## Group and index layer (`core.py`)

`HVPGroup` keeps per-group in-memory indexes: non-unique
`indexes : field → value → list of ids` and unique
`unique_indexes : field → value → id`.  `find` takes the unique-index
fast path, the index-intersection path or the full scan.
-/

/-- The in-memory indexes of one group. -/
structure GIdx where
  idx : List (Str × List (Value × List Str)) := []
  uniq : List (Str × List (Value × Str)) := []
deriving DecidableEq

/-- The document map of one group (id → document, insertion order). -/
abbrev GData := List (Str × Doc)

/-- The equality verification loop of `find` (`doc.get(k) != v` over all
query fields), with Python `.get` semantics. -/
def matchesQ (d : Doc) (q : List (Str × Value)) : Bool :=
  q.all (fun kv => pyGet d kv.1 == kv.2)

/-- The first query field that names a unique index, with its value and
the unique map (`find` step 1: first such key wins). -/
def firstUnique (uniq : List (Str × List (Value × Str))) :
    List (Str × Value) → Option (Str × Value × List (Value × Str))
  | [] => none
  | (k, v) :: rest =>
    match alookup uniq k with
    | some umap => some (k, v, umap)
    | none => firstUnique uniq rest

/-- Candidate-set collection over the non-unique indexes (`find` step 2):
`none` models the early `return []` when an indexed field's value is
absent from its index. -/
def collectIndexed (idx : List (Str × List (Value × List Str))) :
    List (Str × Value) → Option (List (List Str))
  | [] => some []
  | (k, v) :: rest =>
    match alookup idx k with
    | none => collectIndexed idx rest
    | some imap =>
      match alookup imap v with
      | none => none
      | some ids => (collectIndexed idx rest).map (fun sets => ids :: sets)

/-- `HVPGroup.find` (`core.py` lines 126-200).  The iteration order of
the Python set of candidates is unspecified; the model fixes it to the
first index hit's order with duplicates removed, which is immaterial to
every verified property (they are stated up to membership). -/
def findG (groups : List (Str × GData)) (gi : GIdx) (name : Str)
    (q : List (Str × Value)) : List Doc :=
  match alookup groups name with
  | none => []
  | some gdata =>
    if q = [] then gdata.map Prod.snd
    else
      match firstUnique gi.uniq q with
      | some kvu =>
        match alookup kvu.2.2 kvu.2.1 with
        | none => []
        | some docId =>
          match alookup gdata docId with
          | none => []
          | some doc => if matchesQ doc q then [doc] else []
      | none =>
        match collectIndexed gi.idx q with
        | none => []
        | some [] => (gdata.map Prod.snd).filter (fun d => matchesQ d q)
        | some (ids0 :: restSets) =>
          let cands := ids0.dedup.filter (fun i =>
            restSets.all (fun s => decide (i ∈ s)))
          (cands.filterMap (fun i => alookup gdata i)).filter
            (fun d => matchesQ d q)

/-- Does id `i` resolve to a document whose field `f` holds `v`? -/
def docHasVal (gdata : GData) (f : Str) (v : Value) (i : Str) : Bool :=
  match alookup gdata i with
  | some d => pyGet d f == v
  | none => false

/-- Consistency of one non-unique index map with the documents: sound
(every listed id resolves to a document carrying the value) and complete
(every document with a non-null value is listed under it). -/
def NIdxOk (gdata : GData) (f : Str) (imap : List (Value × List Str)) : Prop :=
  (imap.map Prod.fst).Nodup ∧
  (∀ b ∈ imap, b.1 ≠ Value.vnull ∧ ∀ i ∈ b.2, docHasVal gdata f b.1 i = true) ∧
  (∀ p ∈ gdata, pyGet p.2 f ≠ Value.vnull →
    ∃ ids, alookup imap (pyGet p.2 f) = some ids ∧ p.1 ∈ ids)

/-- Consistency of one unique index map with the documents. -/
def UIdxOk (gdata : GData) (f : Str) (umap : List (Value × Str)) : Prop :=
  (umap.map Prod.fst).Nodup ∧
  (∀ b ∈ umap, b.1 ≠ Value.vnull ∧ docHasVal gdata f b.1 b.2 = true) ∧
  (∀ p ∈ gdata, pyGet p.2 f ≠ Value.vnull →
    alookup umap (pyGet p.2 f) = some p.1)

/-- Consistency of a group's in-memory indexes with its documents. -/
def GIdxConsistent (gdata : GData) (gi : GIdx) : Prop :=
  (gdata.map Prod.fst).Nodup ∧
  (∀ p ∈ gi.idx, NIdxOk gdata p.1 p.2) ∧
  (∀ p ∈ gi.uniq, UIdxOk gdata p.1 p.2)

/-- The matcher written from the spec sentence: a document matches Q iff
for every key k in Q, doc[k] compares equal to Q[k]; a missing field
never matches. -/
def specMatches (d : Doc) (q : List (Str × Value)) : Bool :=
  q.all (fun kv =>
    match alookup d kv.1 with
    | some v => v == kv.2
    | none => false)

theorem alookup_of_mem_nodup {κ α : Type} [DecidableEq κ]
    (l : List (κ × α)) (p : κ × α) (hnd : (l.map Prod.fst).Nodup)
    (hp : p ∈ l) : alookup l p.1 = some p.2 := by
  induction l with
  | nil => simp at hp
  | cons hd tl ih =>
    obtain ⟨k0, v0⟩ := hd
    simp only [List.map_cons, List.nodup_cons] at hnd
    rcases List.mem_cons.mp hp with hp | hp
    · rw [hp]
      simp [alookup]
    · have hk : k0 ≠ p.1 := by
        intro he
        exact hnd.1 (he ▸ (List.mem_map.mpr ⟨p, hp, rfl⟩))
      simp only [alookup, if_neg hk]
      exact ih hnd.2 hp

theorem specMatches_eq_matchesQ (d : Doc) (q : List (Str × Value))
    (hq : ∀ kv ∈ q, kv.2 ≠ Value.vnull) : specMatches d q = matchesQ d q := by
  unfold specMatches matchesQ
  induction q with
  | nil => rfl
  | cons kv rest ih =>
    simp only [List.all_cons]
    rw [ih (fun x hx => hq x (List.mem_cons_of_mem _ hx))]
    congr 1
    cases hl : alookup d kv.1 with
    | none =>
      have hv := hq kv (List.mem_cons_self _ _)
      simp [pyGet, hl]
      exact fun he => hv he.symm
    | some v => simp [pyGet, hl]

theorem specMatches_lookup (d : Doc) (q : List (Str × Value)) (k : Str) (v : Value)
    (hm : specMatches d q = true) (hkv : (k, v) ∈ q) : alookup d k = some v := by
  unfold specMatches at hm
  rw [List.all_eq_true] at hm
  have := hm (k, v) hkv
  cases hl : alookup d k with
  | none => rw [hl] at this; simp at this
  | some w =>
    rw [hl] at this
    simp only [beq_iff_eq] at this
    rw [this]

theorem specMatches_pyGet (d : Doc) (q : List (Str × Value)) (k : Str) (v : Value)
    (hm : specMatches d q = true) (hkv : (k, v) ∈ q) : pyGet d k = v := by
  rw [pyGet, specMatches_lookup d q k v hm hkv]
  rfl

theorem firstUnique_mem (uniq : List (Str × List (Value × Str)))
    (q : List (Str × Value)) (k : Str) (v : Value) (umap : List (Value × Str))
    (h : firstUnique uniq q = some (k, v, umap)) :
    (k, v) ∈ q ∧ alookup uniq k = some umap := by
  induction q with
  | nil => simp [firstUnique] at h
  | cons kv rest ih =>
    obtain ⟨k0, v0⟩ := kv
    simp only [firstUnique] at h
    cases hl : alookup uniq k0 with
    | some umap0 =>
      rw [hl] at h
      injection h with h
      obtain ⟨rfl, rfl, rfl⟩ : k0 = k ∧ v0 = v ∧ umap0 = umap := by
        refine ⟨congrArg Prod.fst h, ?_, ?_⟩
        · exact congrArg (fun p => p.2.1) h
        · exact congrArg (fun p => p.2.2) h
      exact ⟨List.mem_cons_self _ _, hl⟩
    | none =>
      rw [hl] at h
      obtain ⟨hmem, hal⟩ := ih h
      exact ⟨List.mem_cons_of_mem _ hmem, hal⟩

theorem collectIndexed_none (idx : List (Str × List (Value × List Str)))
    (q : List (Str × Value)) (h : collectIndexed idx q = none) :
    ∃ k v imap, (k, v) ∈ q ∧ alookup idx k = some imap ∧
      alookup imap v = none := by
  induction q with
  | nil => simp [collectIndexed] at h
  | cons kv rest ih =>
    obtain ⟨k0, v0⟩ := kv
    simp only [collectIndexed] at h
    cases h1 : alookup idx k0 with
    | none =>
      simp only [h1] at h
      obtain ⟨k, v, imap, hq2, hik, hiv⟩ := ih h
      exact ⟨k, v, imap, List.mem_cons_of_mem _ hq2, hik, hiv⟩
    | some imap0 =>
      simp only [h1] at h
      cases h2 : alookup imap0 v0 with
      | none => exact ⟨k0, v0, imap0, List.mem_cons_self _ _, h1, h2⟩
      | some ids =>
        simp only [h2] at h
        cases h3 : collectIndexed idx rest with
        | none =>
          obtain ⟨k, v, imap, hq2, hik, hiv⟩ := ih h3
          exact ⟨k, v, imap, List.mem_cons_of_mem _ hq2, hik, hiv⟩
        | some sets => simp only [h3] at h; simp at h

theorem collectIndexed_sound (idx : List (Str × List (Value × List Str)))
    (q : List (Str × Value)) (sets : List (List Str))
    (h : collectIndexed idx q = some sets) :
    ∀ s ∈ sets, ∃ k v imap, (k, v) ∈ q ∧ alookup idx k = some imap ∧
      alookup imap v = some s := by
  induction q generalizing sets with
  | nil =>
    simp only [collectIndexed, Option.some.injEq] at h
    subst h
    simp
  | cons kv rest ih =>
    obtain ⟨k0, v0⟩ := kv
    simp only [collectIndexed] at h
    cases h1 : alookup idx k0 with
    | none =>
      simp only [h1] at h
      intro s hs
      obtain ⟨k, v, imap, hq2, hik, hiv⟩ := ih sets h s hs
      exact ⟨k, v, imap, List.mem_cons_of_mem _ hq2, hik, hiv⟩
    | some imap0 =>
      simp only [h1] at h
      cases h2 : alookup imap0 v0 with
      | none => simp only [h2] at h; simp at h
      | some ids =>
        simp only [h2] at h
        cases h3 : collectIndexed idx rest with
        | none => simp only [h3] at h; simp at h
        | some sets2 =>
          simp only [h3] at h
          simp only [Option.map_some', Option.some.injEq] at h
          subst h
          intro s hs
          rcases List.mem_cons.mp hs with hs | hs
          · exact ⟨k0, v0, imap0, List.mem_cons_self _ _, h1, by rw [hs]; exact h2⟩
          · obtain ⟨k, v, imap, hq2, hik, hiv⟩ := ih sets2 h3 s hs
            exact ⟨k, v, imap, List.mem_cons_of_mem _ hq2, hik, hiv⟩

theorem collectIndexed_complete (idx : List (Str × List (Value × List Str)))
    (q : List (Str × Value)) (sets : List (List Str))
    (h : collectIndexed idx q = some sets) :
    ∀ k v imap, (k, v) ∈ q → alookup idx k = some imap →
      ∃ ids, alookup imap v = some ids ∧ ids ∈ sets := by
  induction q generalizing sets with
  | nil =>
    intro k v imap hq hik
    simp at hq
  | cons kv rest ih =>
    obtain ⟨k0, v0⟩ := kv
    simp only [collectIndexed] at h
    intro k v imap hq hik
    rcases List.mem_cons.mp hq with hq1 | hq1
    · injection hq1 with hk hv
      subst hk
      subst hv
      simp only [hik] at h
      cases h2 : alookup imap v with
      | none => simp only [h2] at h; simp at h
      | some ids =>
        simp only [h2] at h
        cases h3 : collectIndexed idx rest with
        | none => simp only [h3] at h; simp at h
        | some sets2 =>
          simp only [h3] at h
          simp only [Option.map_some', Option.some.injEq] at h
          subst h
          exact ⟨ids, rfl, List.mem_cons_self _ _⟩
    · cases h1 : alookup idx k0 with
      | none =>
        simp only [h1] at h
        exact ih sets h k v imap hq1 hik
      | some imap0 =>
        simp only [h1] at h
        cases h2 : alookup imap0 v0 with
        | none => simp only [h2] at h; simp at h
        | some ids0 =>
          simp only [h2] at h
          cases h3 : collectIndexed idx rest with
          | none => simp only [h3] at h; simp at h
          | some sets2 =>
            simp only [h3] at h
            simp only [Option.map_some', Option.some.injEq] at h
            subst h
            obtain ⟨ids, hids, hin⟩ := ih sets2 h3 k v imap hq1 hik
            exact ⟨ids, hids, List.mem_cons_of_mem _ hin⟩

/-- C5 (amended): for every group whose in-memory indexes are consistent
with its documents and every query all of whose values are non-null, the
index-optimised `find` returns exactly the documents selected by the
naive equality matcher over a full scan, regardless of the path taken. -/
theorem find_equiv_scan (groups : List (Str × GData)) (gi : GIdx) (name : Str)
    (q : List (Str × Value)) (gdata : GData)
    (hg : alookup groups name = some gdata)
    (hcons : GIdxConsistent gdata gi)
    (hq : ∀ kv ∈ q, kv.2 ≠ Value.vnull) (d : Doc) :
    d ∈ findG groups gi name q ↔
      d ∈ (gdata.map Prod.snd).filter (fun d2 => specMatches d2 q) := by
  obtain ⟨hnd, hnidx, huidx⟩ := hcons
  by_cases hq0 : q = []
  · subst hq0
    rw [show findG groups gi name [] = gdata.map Prod.snd from by
      simp [findG, hg]]
    simp [specMatches]
  · cases hfu : firstUnique gi.uniq q with
    | some kvu =>
      obtain ⟨k, v, umap⟩ := kvu
      obtain ⟨hkq, hku⟩ := firstUnique_mem _ _ _ _ _ hfu
      obtain ⟨hund, husound, hucomp⟩ := huidx (k, umap) (alookup_mem _ _ _ hku)
      have hvn : v ≠ Value.vnull := hq (k, v) hkq
      cases hl : alookup umap v with
      | none =>
        rw [show findG groups gi name q = [] from by
          simp only [findG, hg, if_neg hq0, hfu, hl]]
        simp only [List.not_mem_nil, false_iff]
        intro hd
        rw [List.mem_filter] at hd
        obtain ⟨hdm, hsm⟩ := hd
        obtain ⟨p, hp, rfl⟩ := List.mem_map.mp hdm
        have hpv : pyGet p.2 k = v := specMatches_pyGet _ _ _ _ hsm hkq
        have hc := hucomp p hp (by rw [hpv]; exact hvn)
        rw [hpv, hl] at hc
        exact Option.noConfusion hc
      | some docId =>
        have hdh := (husound (v, docId) (alookup_mem _ _ _ hl)).2
        unfold docHasVal at hdh
        cases hgd : alookup gdata docId with
        | none => rw [hgd] at hdh; simp at hdh
        | some doc0 =>
          rw [hgd] at hdh
          have hval0 : pyGet doc0 k = v := by simpa using hdh
          rw [show findG groups gi name q =
              (if matchesQ doc0 q then [doc0] else []) from by
            simp only [findG, hg, if_neg hq0, hfu, hl, hgd]]
          constructor
          · intro hdm
            by_cases hm : matchesQ doc0 q
            · rw [if_pos hm, List.mem_singleton] at hdm
              subst hdm
              rw [List.mem_filter]
              refine ⟨List.mem_map.mpr ⟨(docId, d), alookup_mem _ _ _ hgd, rfl⟩, ?_⟩
              rw [specMatches_eq_matchesQ _ _ hq]
              exact hm
            · rw [if_neg hm] at hdm
              simp at hdm
          · intro hdm
            rw [List.mem_filter] at hdm
            obtain ⟨hmm, hsm⟩ := hdm
            obtain ⟨p, hp, rfl⟩ := List.mem_map.mp hmm
            have hpv : pyGet p.2 k = v := specMatches_pyGet _ _ _ _ hsm hkq
            have hc := hucomp p hp (by rw [hpv]; exact hvn)
            rw [hpv, hl] at hc
            have hid : docId = p.1 := Option.some.inj hc
            have hap : alookup gdata p.1 = some p.2 := alookup_of_mem_nodup _ _ hnd hp
            rw [← hid, hgd] at hap
            have hpd : doc0 = p.2 := Option.some.inj hap
            rw [if_pos (by rw [← specMatches_eq_matchesQ _ _ hq, hpd]; exact hsm)]
            rw [List.mem_singleton, hpd]
    | none =>
      cases hci : collectIndexed gi.idx q with
      | none =>
        obtain ⟨k, v, imap, hkq, hik, hiv⟩ := collectIndexed_none _ _ hci
        rw [show findG groups gi name q = [] from by
          simp only [findG, hg, if_neg hq0, hfu, hci]]
        simp only [List.not_mem_nil, false_iff]
        intro hd
        rw [List.mem_filter] at hd
        obtain ⟨hdm, hsm⟩ := hd
        obtain ⟨p, hp, rfl⟩ := List.mem_map.mp hdm
        have hnok := hnidx (k, imap) (alookup_mem _ _ _ hik)
        have hpv : pyGet p.2 k = v := specMatches_pyGet _ _ _ _ hsm hkq
        obtain ⟨ids, hids, -⟩ := hnok.2.2 p hp (by rw [hpv]; exact hq _ hkq)
        rw [hpv, hiv] at hids
        exact Option.noConfusion hids
      | some sets =>
        cases sets with
        | nil =>
          rw [show findG groups gi name q =
              (gdata.map Prod.snd).filter (fun d2 => matchesQ d2 q) from by
            simp only [findG, hg, if_neg hq0, hfu, hci]]
          have hmq : ∀ d2 : Doc, matchesQ d2 q = specMatches d2 q :=
            fun d2 => (specMatches_eq_matchesQ d2 q hq).symm
          simp [List.mem_filter, hmq]
        | cons ids0 restSets =>
          rw [show findG groups gi name q =
              ((ids0.dedup.filter (fun i =>
                restSets.all (fun s2 => decide (i ∈ s2)))).filterMap
                  (fun i => alookup gdata i)).filter
                (fun d2 => matchesQ d2 q) from by
            simp only [findG, hg, if_neg hq0, hfu, hci]]
          constructor
          · intro hdm
            rw [List.mem_filter] at hdm
            obtain ⟨hdf, hmq⟩ := hdm
            rw [List.mem_filterMap] at hdf
            obtain ⟨i, hic, hia⟩ := hdf
            rw [List.mem_filter]
            refine ⟨List.mem_map.mpr ⟨(i, d), alookup_mem _ _ _ hia, rfl⟩, ?_⟩
            rw [specMatches_eq_matchesQ _ _ hq]
            exact hmq
          · intro hdm
            rw [List.mem_filter] at hdm
            obtain ⟨hmm, hsm⟩ := hdm
            obtain ⟨p, hp, rfl⟩ := List.mem_map.mp hmm
            have hmemsets : ∀ s ∈ ids0 :: restSets, p.1 ∈ s := by
              intro s2 hs
              obtain ⟨k, v, imap, hkq, hik, hiv⟩ :=
                collectIndexed_sound _ _ _ hci s2 hs
              have hnok := hnidx (k, imap) (alookup_mem _ _ _ hik)
              have hpv : pyGet p.2 k = v := specMatches_pyGet _ _ _ _ hsm hkq
              obtain ⟨ids, hids, hin⟩ := hnok.2.2 p hp (by rw [hpv]; exact hq _ hkq)
              rw [hpv, hiv] at hids
              rw [Option.some.inj hids]
              exact hin
            rw [List.mem_filter]
            refine ⟨?_, by rw [← specMatches_eq_matchesQ _ _ hq]; exact hsm⟩
            rw [List.mem_filterMap]
            refine ⟨p.1, ?_, alookup_of_mem_nodup _ _ hnd hp⟩
            rw [List.mem_filter]
            refine ⟨List.mem_dedup.mpr (hmemsets ids0 (List.mem_cons_self _ _)), ?_⟩
            rw [List.all_eq_true]
            intro s2 hs
            exact decide_eq_true (hmemsets s2 (List.mem_cons_of_mem _ hs))

/-- Counterexample group: one document whose field `e` holds an explicit
null, and a unique index on `e` (consistently empty, since null values
are never indexed). -/
def docNullw : Doc := [([101], Value.vnull)]

/-- The counterexample document map. -/
def gdataNw : GData := [([97], docNullw)]

/-- The counterexample group indexes: a unique index on field `e` with
no entries. -/
def giNw : GIdx := { idx := [], uniq := [([101], [])] }

/-- The counterexample groups map. -/
def groupsNw : List (Str × GData) := [([103], gdataNw)]

/-- The null-valued query. -/
def qNullw : List (Str × Value) := [([101], Value.vnull)]

theorem giNw_consistent : GIdxConsistent gdataNw giNw := by
  refine ⟨by decide, ?_, ?_⟩
  · intro p hp
    simp [giNw] at hp
  · intro p hp
    simp only [giNw, List.mem_singleton] at hp
    subst hp
    refine ⟨by decide, by simp, ?_⟩
    intro p2 hp2 hne
    simp only [gdataNw, List.mem_singleton] at hp2
    subst hp2
    exact absurd (by decide) hne

/-- C5 as frozen is false on the code: with a consistent group holding
one document whose field `e` is an explicit null and a unique index on
`e`, the query `{e: null}` makes the unique fast path return `[]`, while
the naive equality matcher of the spec (and equally the full-scan
matcher the code itself uses as fallback) selects the document. -/
theorem find_equiv_counterexample :
    GIdxConsistent gdataNw giNw ∧
    findG groupsNw giNw [103] qNullw = [] ∧
    (gdataNw.map Prod.snd).filter (fun d => specMatches d qNullw) = [docNullw] ∧
    (gdataNw.map Prod.snd).filter (fun d => matchesQ d qNullw) = [docNullw] := by
  exact ⟨giNw_consistent, by decide, by decide, by decide⟩

/-- A simple consistent witness group for the find equivalence. -/
def gdataFw : GData := [([97], [([102], Value.vint 1)])]

theorem find_equiv_witness :
    (alookup [([103], gdataFw)] [103] = some gdataFw ∧
      (∀ kv ∈ [(([102] : Str), Value.vint 1)], kv.2 ≠ Value.vnull) ∧
      GIdxConsistent gdataFw {}) ∧
    ([([102], Value.vint 1)] ∈
        findG [([103], gdataFw)] {} [103] [([102], Value.vint 1)] ↔
      [([102], Value.vint 1)] ∈
        (gdataFw.map Prod.snd).filter
          (fun d2 => specMatches d2 [([102], Value.vint 1)])) := by
  have hcons : GIdxConsistent gdataFw {} := by
    refine ⟨by decide, ?_, ?_⟩ <;> intro p hp <;> simp [GIdx] at hp
  refine ⟨⟨by decide, by decide, hcons⟩, ?_⟩
  exact find_equiv_scan [([103], gdataFw)] {} [103] [([102], Value.vint 1)]
    gdataFw (by decide) hcons (by decide) [([102], Value.vint 1)]

/-! ## Snapshot body serialisation (`storage.py` data dict)

`self.data` is a dict with keys `groups`, `_indexes`, `users`, `seq`;
MsgPack-serialised into the snapshot body.  The generic string-keyed
association-list codec below mirrors the Value codec.
-/

/-- Generic encoder for a string-keyed association list. -/
def encSL {A : Type} (encA : A → Bytes) : List (Str × A) → Bytes
  | [] => [0]
  | (k, a) :: tl => 1 :: k.length :: (k ++ encA a ++ encSL encA tl)

/-- Generic decoder for a string-keyed association list; the fuel is
consumed once per entry. -/
def decSL {A : Type} (decA : Bytes → Option (A × Bytes)) :
    Nat → Bytes → Option (List (Str × A) × Bytes)
  | 0, _ => none
  | _ + 1, 0 :: rest => some ([], rest)
  | fuel + 1, 1 :: n :: rest =>
    if n ≤ rest.length then
      (decA (rest.drop n)).bind (fun p =>
        (decSL decA fuel p.2).map (fun q => ((rest.take n, p.1) :: q.1, q.2)))
    else none
  | _ + 1, _ => none

theorem decSL_encSL {A : Type} (encA : A → Bytes)
    (decA : Bytes → Option (A × Bytes))
    (hround : ∀ a rest, decA (encA a ++ rest) = some (a, rest)) :
    ∀ (l : List (Str × A)) (rest : Bytes) (fuel : Nat), l.length < fuel →
      decSL decA fuel (encSL encA l ++ rest) = some (l, rest) := by
  intro l
  induction l with
  | nil =>
    intro rest fuel h
    cases fuel with
    | zero => omega
    | succ fuel => simp [encSL, decSL]
  | cons hd tl ih =>
    intro rest fuel h
    obtain ⟨k, a⟩ := hd
    cases fuel with
    | zero => omega
    | succ fuel =>
      simp only [encSL, List.cons_append, decSL, List.append_eq, List.append_assoc]
      rw [if_pos (by simp)]
      rw [List.drop_left, List.take_left]
      rw [hround a (encSL encA tl ++ rest), Option.some_bind]
      rw [ih rest fuel (by simp at h; omega)]
      rfl

/-- Decoder wrapper running a fueled decoder with its input length as
fuel. -/
def selfFuel {A : Type} (dec : Nat → Bytes → Option (A × Bytes)) :
    Bytes → Option (A × Bytes) := fun bs => dec bs.length bs

theorem selfFuel_decDoc (d : Doc) (rest : Bytes) :
    selfFuel decDoc (encDoc d ++ rest) = some (d, rest) := by
  unfold selfFuel
  exact decDoc_encDoc d rest _ (by simp)

theorem encSL_length_ge {A : Type} (encA : A → Bytes) (l : List (Str × A)) :
    l.length < (encSL encA l).length := by
  induction l with
  | nil => simp [encSL]
  | cons hd tl ih =>
    obtain ⟨k, a⟩ := hd
    simp only [encSL, List.length_cons, List.length_append]
    omega

theorem selfFuel_decSL {A : Type} (encA : A → Bytes)
    (decA : Bytes → Option (A × Bytes))
    (hround : ∀ a rest, decA (encA a ++ rest) = some (a, rest))
    (l : List (Str × A)) (rest : Bytes) :
    selfFuel (decSL decA) (encSL encA l ++ rest) = some (l, rest) := by
  unfold selfFuel
  apply decSL_encSL encA decA hround l rest
  have := encSL_length_ge encA l
  simp only [List.length_append]
  omega

/-- Boolean codec (for the persisted unique flags of `_indexes`). -/
def encB (b : Bool) : Bytes := [cond b 1 0]

/-- Boolean decoder. -/
def decB : Bytes → Option (Bool × Bytes)
  | b :: rest => some (b == 1, rest)
  | [] => none

theorem decB_encB (b : Bool) (rest : Bytes) : decB (encB b ++ rest) = some (b, rest) := by
  cases b <;> simp [encB, decB]

/-- Generic option codec. -/
def encOpt {A : Type} (encA : A → Bytes) : Option A → Bytes
  | none => [0]
  | some a => 1 :: encA a

/-- Generic option decoder. -/
def decOpt {A : Type} (decA : Bytes → Option (A × Bytes)) :
    Bytes → Option (Option A × Bytes)
  | 0 :: rest => some (none, rest)
  | 1 :: rest => (decA rest).map (fun p => (some p.1, p.2))
  | _ => none

theorem decOpt_encOpt {A : Type} (encA : A → Bytes)
    (decA : Bytes → Option (A × Bytes))
    (hround : ∀ a rest, decA (encA a ++ rest) = some (a, rest))
    (o : Option A) (rest : Bytes) :
    decOpt decA (encOpt encA o ++ rest) = some (o, rest) := by
  cases o with
  | none => simp [encOpt, decOpt]
  | some a =>
    simp only [encOpt, List.cons_append, decOpt]
    rw [hround a rest]
    rfl

/-- The snapshot body: the keys of `self.data` that the engine reads
(`groups`, `_indexes`, `users`, `seq`); `_indexes` and `users` are added
lazily and `seq` only by `save`, hence the options. -/
instance : DecidableEq (Str × GData) := instDecidableEqProd

structure DBData where
  groups : List (Str × GData) := []
  indexes : Option (List (Str × List (Str × Bool))) := none
  users : Option (List (Str × Doc)) := none
  seq : Option Nat := none
deriving DecidableEq

/-- Serialise the snapshot body (MsgPack stand-in). -/
def packData (d : DBData) : Bytes :=
  encSL (encSL encDoc) d.groups ++
    encOpt (encSL (encSL encB)) d.indexes ++
    encOpt (encSL encDoc) d.users ++
    encON d.seq

/-- Deserialise the snapshot body; like `msgpack.unpackb` it rejects
trailing bytes. -/
def unpackData (bs : Bytes) : Option DBData :=
  (selfFuel (decSL (selfFuel (decSL (selfFuel decDoc)))) bs).bind (fun p1 =>
  (decOpt (selfFuel (decSL (selfFuel (decSL decB)))) p1.2).bind (fun p2 =>
  (decOpt (selfFuel (decSL (selfFuel decDoc))) p2.2).bind (fun p3 =>
  (decON p3.2).bind (fun p4 =>
  match p4.2 with
  | [] => some ⟨p1.1, p2.1, p3.1, p4.1⟩
  | _ => none))))

theorem unpackData_packData (d : DBData) : unpackData (packData d) = some d := by
  obtain ⟨g, i, u, sq⟩ := d
  have hgd : ∀ (x : GData) (rest : Bytes),
      selfFuel (decSL (selfFuel decDoc)) (encSL encDoc x ++ rest) = some (x, rest) :=
    fun x rest => selfFuel_decSL encDoc _ selfFuel_decDoc x rest
  have hbm : ∀ (x : List (Str × Bool)) (rest : Bytes),
      selfFuel (decSL decB) (encSL encB x ++ rest) = some (x, rest) :=
    fun x rest => selfFuel_decSL encB _ decB_encB x rest
  have hbm2 : ∀ (x : List (Str × List (Str × Bool))) (rest : Bytes),
      selfFuel (decSL (selfFuel (decSL decB)))
        (encSL (encSL encB) x ++ rest) = some (x, rest) :=
    fun x rest => selfFuel_decSL (encSL encB) _ hbm x rest
  simp only [packData, unpackData, List.append_assoc]
  rw [selfFuel_decSL (encSL encDoc) _ hgd, Option.some_bind]
  rw [decOpt_encOpt (encSL (encSL encB)) _ hbm2, Option.some_bind]
  rw [decOpt_encOpt (encSL encDoc) _ hgd, Option.some_bind]
  have h4 : decON (encON sq) = some (sq, []) := by
    have := decON_encON sq []
    simpa using this
  rw [h4, Option.some_bind]

/-! ## Storage layer (`storage.py`)

The state of one `HVPStorage` instance together with the byte contents
of its two files.  File-system concerns that no claim mentions (locking,
fsync, atomic temp-file swap, permissions) are outside the model; the
model keeps exactly the bytes each operation reads and writes.
-/

/-- Observable exception classes of the storage and group layers:
`valueError` for the `ValueError`s of `load`, `runtimeError` for the
`RuntimeError` of `refresh` on a dirty state, `duplicateError` for the
`ValueError("Duplicate key error ...")` of `_update_index`, and
`keyError` for an indexing `KeyError`. -/
inductive DBError : Type where
  | valueError : DBError
  | runtimeError : DBError
  | duplicateError : DBError
  | keyError : DBError
deriving DecidableEq

/-- The op string `insert`. -/
def opInsert : Str := [105, 110, 115, 101, 114, 116]

/-- The op string `update`. -/
def opUpdate : Str := [117, 112, 100, 97, 116, 101]

/-- The op string `delete`. -/
def opDelete : Str := [100, 101, 108, 101, 116, 101]

/-- The reserved document-id field `_id`. -/
def idKey : Str := [95, 105, 100]

/-- The reserved field `_created_at`. -/
def createdKey : Str := [95, 99, 114, 101, 97, 116, 101, 100, 95, 97, 116]

/-- The reserved field `_updated_at`. -/
def updatedKey : Str := [95, 117, 112, 100, 97, 116, 101, 100, 95, 97, 116]

instance : DecidableEq (Str × List Entry) := instDecidableEqProd

/-- The in-memory and on-disk state of one `HVPStorage` instance.
`pw`, `salt` and `kdfB` model the initialised `HVPSecurity` context
(password, 16-byte salt, packed KDF parameters); `walFile` models the
bytes of `<path>.log` (`[]` = absent or empty, the two cases
`ensure_header` treats alike) and `snapFile` the bytes of the snapshot
file (`none` = absent). -/
structure StState where
  pw : Str
  salt : Bytes
  kdfB : Bytes
  data : DBData := {}
  dirty : Bool := false
  lastSeq : Nat := 0
  txnBuffers : List (Str × List Entry) := []
  walFile : Bytes := []
  snapFile : Option Bytes := none
deriving DecidableEq

/-- The AEAD key of the state's security context. -/
def StState.key (s : StState) : Bytes := deriveKey s.pw s.salt s.kdfB

/-- `HVPWAL.ensure_header`: write the header iff the log file is absent
or empty. -/
def walEnsureHeader (salt kdfB : Bytes) (w : Bytes) : Bytes :=
  if w.length = 0 then walHeader salt kdfB else w

/-- `HVPWAL._write_entry`: ensure the header, then append one frame. -/
def walWriteEntry (s : StState) (w : Bytes) (e : Entry) : Bytes :=
  walEnsureHeader s.salt s.kdfB w ++ encFrame s.key e

/-- `HVPWAL.write_batch`: a no-op on an empty list, else ensure the
header and append one frame per entry. -/
def walWriteBatch (s : StState) (w : Bytes) (es : List Entry) : Bytes :=
  if es = [] then w
  else walEnsureHeader s.salt s.kdfB w ++ (es.map (encFrame s.key)).flatten

/-- `HVPStorage.begin_txn` (storage.py lines 261-279); the fresh
`uuid.uuid4()` transaction id is an argument.  Timestamps are modelled
as `0` throughout. -/
def begin_txn (s : StState) (tid : Str) : StState :=
  let ls := s.lastSeq + 1
  let e : Entry := { seq := some ls, txn := some tid, type := some tyBEGIN }
  { s with lastSeq := ls, txnBuffers := aset s.txnBuffers tid [e] }

/-- `HVPStorage.commit_txn` (lines 281-301): append COMMIT to the
buffer and flush the whole buffer to the WAL in one batch, or fall back
to a direct COMMIT record when no buffer exists. -/
def commit_txn (s : StState) (tid : Str) : StState :=
  let ls := s.lastSeq + 1
  let e : Entry := { seq := some ls, txn := some tid, type := some tyCOMMIT }
  match alookup s.txnBuffers tid with
  | some buf =>
    { s with lastSeq := ls,
             walFile := walWriteBatch s s.walFile (buf ++ [e]),
             txnBuffers := adel s.txnBuffers tid }
  | none => { s with lastSeq := ls, walFile := walWriteEntry s s.walFile e }

/-- `HVPStorage.rollback_txn` (lines 303-314): discard the buffer and
write a ROLLBACK audit record directly to the WAL. -/
def rollback_txn (s : StState) (tid : Str) : StState :=
  let ls := s.lastSeq + 1
  let e : Entry := { seq := some ls, txn := some tid, type := some tyROLLBACK }
  { s with lastSeq := ls,
           txnBuffers := adel s.txnBuffers tid,
           walFile := walWriteEntry s s.walFile e }

/-- `HVPStorage.append_log` (lines 316-345); the caller supplies the
transaction id (a fresh `uuid.uuid4()` when the Python argument is
falsy, hence never a buffered key in that case). -/
def append_log (s : StState) (op g did : Str) (d : Option Doc) (tid : Str)
    (b : Option Doc) : StState :=
  let ls := s.lastSeq + 1
  let e : Entry := { seq := some ls, txn := some tid, type := some tyDATA,
                     op := some op, g := some g, id := some did, d := d, b := b }
  if amem s.txnBuffers tid then
    { s with lastSeq := ls,
             txnBuffers := aset s.txnBuffers tid
               ((alookup s.txnBuffers tid).getD [] ++ [e]) }
  else { s with lastSeq := ls, walFile := walWriteEntry s s.walFile e }

/-- The snapshot header `HEADER ‖ VERSION ‖ SALT ‖ KDF_LEN ‖ KDF_PARAMS`
written by `save` — also the AAD of the v2 encryption. -/
def snapHeader (salt kdfB : Bytes) : Bytes :=
  SNAP_MAGIC ++ beBytes2 2 ++ salt ++ beBytes2 kdfB.length ++ kdfB

/-- `HVPStorage.save` (lines 191-259): store `seq` in the body, pack,
compress, encrypt with the header as AAD, atomically replace the
snapshot file, truncate the WAL to a fresh header, clear the dirty
flag. -/
def save (s : StState) : StState :=
  let d2 := { s.data with seq := some s.lastSeq }
  let aad := snapHeader s.salt s.kdfB
  let ct := (aeadEncrypt s.key (some aad) (zstdCompress (packData d2))).2
  { s with data := d2, dirty := false,
           snapFile := some (aad ++ nonce0 ++ ct),
           walFile := walHeader s.salt s.kdfB }

/-- `HVPStorage._apply_entry` (lines 160-189) on the snapshot body and
the last-sequence counter.  In the legacy branch (an `op` that is none
of insert/update/delete) the engine indexes the group dict by
`data["_id"]`; the engine only ever writes string ids, and a non-string
id could not index `GData`, so that case leaves the group unchanged. -/
def applyEntry (d : DBData) (ls : Nat) (e : Entry) : DBData × Nat :=
  let ls2 := if e.seq.getD 0 > ls then e.seq.getD 0 else ls
  match e.g with
  | none => (d, ls2)
  | some gname =>
    if gname = [] then (d, ls2)
    else
      let gdata := (alookup d.groups gname).getD []
      let newG : GData :=
        if e.op = some opInsert ∨ e.op = some opUpdate then
          match e.id, e.d with
          | some did, some dd =>
            if did ≠ [] ∧ dd ≠ [] then aset gdata did dd else gdata
          | _, _ => gdata
        else if e.op = some opDelete then
          match e.id with
          | some did =>
            if did ≠ [] ∧ amem gdata did then adel gdata did else gdata
          | none => gdata
        else
          match e.d with
          | some dd =>
            if dd ≠ [] then
              match alookup dd idKey with
              | some (Value.vstr i) => aset gdata i dd
              | _ => gdata
            else gdata
          | none => gdata
      ({ d with groups := aset d.groups gname newG }, ls2)

/-- The fold `_replay_wal` performs: each record fed by `HVPWAL.replay`
is applied by `_apply_entry`, in call order. -/
def applyEntries (d : DBData) (ls : Nat) : List Entry → DBData × Nat
  | [] => (d, ls)
  | e :: es => applyEntries (applyEntry d ls e).1 (applyEntry d ls e).2 es

/-- Stand-in for `msgpack.packb` of the default Argon2id parameters
(`HVPSecurity.__init__`), used when a v1 snapshot initialises security
with no explicit KDF parameters. -/
def defaultKdfB : Bytes := [3, 255, 255, 4]

/-- `HVPStorage.load` (lines 81-149) followed by `_replay_wal`
(lines 151-158).  A missing snapshot file is a cold start: empty data
and an early return that skips WAL replay.  Otherwise the v1/v2 header
is parsed, the body is decrypted (v2: with the header bytes as AAD),
decompressed and unpacked, `last_sequence` is taken from the body's
`seq`, and the WAL is replayed on top; every parse/decrypt failure is
the single `ValueError` of line 145.  The security context is taken
from the file's salt and KDF bytes, as on a fresh open (`_init_security`
keeps an existing context; in every modelled scenario the two
coincide). -/
def loadSt (s : StState) : Except DBError StState :=
  match s.snapFile with
  | none => Except.ok { s with data := {} }
  | some file =>
    if file.take 5 ≠ SNAP_MAGIC then Except.error DBError.valueError
    else
      let ver := beVal ((file.drop 5).take 2)
      if ver = 1 then
        let salt := (file.drop 7).take 16
        let nonce := (file.drop 23).take 12
        let ct := file.drop 35
        let key := deriveKey s.pw salt defaultKdfB
        match ((aeadDecrypt key nonce ct none).bind zstdDecompress).bind
            unpackData with
        | none => Except.error DBError.valueError
        | some d =>
          let ls := d.seq.getD 0
          let recs := replayFile key ls s.walFile
          Except.ok { s with salt := salt, kdfB := defaultKdfB,
                             data := (applyEntries d ls recs).1,
                             lastSeq := (applyEntries d ls recs).2,
                             dirty := if 0 < recs.length then true else s.dirty }
      else if ver = 2 then
        let salt := (file.drop 7).take 16
        let kdfLen := beVal ((file.drop 23).take 2)
        let kdfB := (file.drop 25).take kdfLen
        let nonce := (file.drop (25 + kdfLen)).take 12
        let ct := file.drop (37 + kdfLen)
        let key := deriveKey s.pw salt kdfB
        let aad := SNAP_MAGIC ++ beBytes2 2 ++ salt ++ beBytes2 kdfLen ++ kdfB
        match ((aeadDecrypt key nonce ct (some aad)).bind zstdDecompress).bind
            unpackData with
        | none => Except.error DBError.valueError
        | some d =>
          let ls := d.seq.getD 0
          let recs := replayFile key ls s.walFile
          Except.ok { s with salt := salt, kdfB := kdfB,
                             data := (applyEntries d ls recs).1,
                             lastSeq := (applyEntries d ls recs).2,
                             dirty := if 0 < recs.length then true else s.dirty }
      else Except.error DBError.valueError

/-- `HVPStorage.refresh` (lines 72-79): raise `RuntimeError` on a dirty
state, else reload from disk. -/
def refreshSt (s : StState) : Except DBError StState :=
  if s.dirty then Except.error DBError.runtimeError else loadSt s

theorem zstdDecompress_zstdCompress (b : Bytes) :
    zstdDecompress (zstdCompress b) = some b := rfl

/-- Parsing a v2 snapshot file laid out as `save` writes it: `load`
reduces to decrypting the ciphertext section under the file's salt and
KDF bytes with the header as AAD. -/
theorem loadSt_parse (s : StState) (salt kdfB ct : Bytes)
    (hs : salt.length = 16) (hk : kdfB.length < 65536)
    (hsnap : s.snapFile = some (snapHeader salt kdfB ++ (nonce0 ++ ct))) :
    loadSt s =
      match ((aeadDecrypt (deriveKey s.pw salt kdfB) nonce0 ct
          (some (snapHeader salt kdfB))).bind zstdDecompress).bind unpackData with
      | none => Except.error DBError.valueError
      | some d =>
        Except.ok { s with salt := salt, kdfB := kdfB,
                           data := (applyEntries d (d.seq.getD 0)
                             (replayFile (deriveKey s.pw salt kdfB) (d.seq.getD 0)
                               s.walFile)).1,
                           lastSeq := (applyEntries d (d.seq.getD 0)
                             (replayFile (deriveKey s.pw salt kdfB) (d.seq.getD 0)
                               s.walFile)).2,
                           dirty := if 0 < (replayFile (deriveKey s.pw salt kdfB)
                               (d.seq.getD 0) s.walFile).length then true
                             else s.dirty } := by
  have hF : snapHeader salt kdfB ++ (nonce0 ++ ct) =
      SNAP_MAGIC ++ (beBytes2 2 ++ (salt ++ (beBytes2 kdfB.length ++
        (kdfB ++ (nonce0 ++ ct))))) := by
    simp [snapHeader, List.append_assoc]
  have htake5 : (snapHeader salt kdfB ++ (nonce0 ++ ct)).take 5 = SNAP_MAGIC := by
    rw [hF]; exact List.take_left' rfl
  have hdrop5 : (snapHeader salt kdfB ++ (nonce0 ++ ct)).drop 5 =
      beBytes2 2 ++ (salt ++ (beBytes2 kdfB.length ++ (kdfB ++ (nonce0 ++ ct)))) := by
    rw [hF]; exact List.drop_left' rfl
  have hdrop7 : (snapHeader salt kdfB ++ (nonce0 ++ ct)).drop 7 =
      salt ++ (beBytes2 kdfB.length ++ (kdfB ++ (nonce0 ++ ct))) := by
    rw [show (7 : Nat) = 5 + 2 from rfl, ← List.drop_drop, hdrop5]
    exact List.drop_left' rfl
  have hdrop23 : (snapHeader salt kdfB ++ (nonce0 ++ ct)).drop 23 =
      beBytes2 kdfB.length ++ (kdfB ++ (nonce0 ++ ct)) := by
    rw [show (23 : Nat) = 7 + 16 from rfl, ← List.drop_drop, hdrop7]
    exact List.drop_left' hs
  have hdrop25 : (snapHeader salt kdfB ++ (nonce0 ++ ct)).drop 25 =
      kdfB ++ (nonce0 ++ ct) := by
    rw [show (25 : Nat) = 23 + 2 from rfl, ← List.drop_drop, hdrop23]
    exact List.drop_left' rfl
  have hdrop25k : (snapHeader salt kdfB ++ (nonce0 ++ ct)).drop (25 + kdfB.length) =
      nonce0 ++ ct := by
    rw [← List.drop_drop, hdrop25]
    exact List.drop_left' rfl
  have hdrop37k : (snapHeader salt kdfB ++ (nonce0 ++ ct)).drop (37 + kdfB.length) =
      ct := by
    rw [show 37 + kdfB.length = 25 + kdfB.length + 12 from by omega,
      ← List.drop_drop, hdrop25k]
    exact List.drop_left' rfl
  have htakev : ((snapHeader salt kdfB ++ (nonce0 ++ ct)).drop 5).take 2 =
      beBytes2 2 := by
    rw [hdrop5]; exact List.take_left' rfl
  have htakes : ((snapHeader salt kdfB ++ (nonce0 ++ ct)).drop 7).take 16 = salt := by
    rw [hdrop7]; exact List.take_left' hs
  have htakek : ((snapHeader salt kdfB ++ (nonce0 ++ ct)).drop 23).take 2 =
      beBytes2 kdfB.length := by
    rw [hdrop23]; exact List.take_left' rfl
  have htakekb : ((snapHeader salt kdfB ++ (nonce0 ++ ct)).drop 25).take kdfB.length =
      kdfB := by
    rw [hdrop25]; exact List.take_left' rfl
  have htaken : ((snapHeader salt kdfB ++ (nonce0 ++ ct)).drop (25 + kdfB.length)).take
      12 = nonce0 := by
    rw [hdrop25k]; exact List.take_left' rfl
  simp only [loadSt, hsnap, htake5, htakev, htakes, htakek, htakekb, htaken, hdrop37k,
    beVal_beBytes2 2 (by norm_num), beVal_beBytes2 kdfB.length hk]
  rw [if_neg (by simp)]
  rw [if_neg (by norm_num)]
  rw [if_pos trivial]
  rfl

theorem replayLoop_nil (key : Bytes) (ls fuel : Nat)
    (buf : List (Str × List Entry)) : replayLoop key ls fuel [] buf = [] := by
  cases fuel with
  | zero => rfl
  | succ n => simp [replayLoop]

/-- Replaying a WAL that holds only a fresh header feeds nothing. -/
theorem replayFile_header_only (key : Bytes) (ls : Nat) (salt kdfB : Bytes)
    (hs : salt.length = 16) (hk : kdfB.length < 65536) :
    replayFile key ls (walHeader salt kdfB) = [] := by
  have h := replayFile_walHeader key ls salt kdfB [] hs hk
  rw [List.append_nil] at h
  rw [h, replayLoop_nil]

/-- C4 (amended): each of `begin_txn`, `commit_txn`, `rollback_txn` and
`append_log` advances the last-sequence counter by exactly one, so the
counter is strictly monotonic over the operations of one loaded
generation.  (The frozen claim's further assertion that the value never
decreases across refresh/reload fails: reload recomputes the counter
from the snapshot `seq` and the replayed records, see the
counterexample.) -/
theorem last_seq_ops_advance_by_one (s : StState) (tid op g did : Str)
    (d b : Option Doc) :
    (begin_txn s tid).lastSeq = s.lastSeq + 1 ∧
    (commit_txn s tid).lastSeq = s.lastSeq + 1 ∧
    (rollback_txn s tid).lastSeq = s.lastSeq + 1 ∧
    (append_log s op g did d tid b).lastSeq = s.lastSeq + 1 := by
  refine ⟨rfl, ?_, rfl, ?_⟩
  · unfold commit_txn
    cases alookup s.txnBuffers tid <;> rfl
  · unfold append_log
    by_cases h : amem s.txnBuffers tid = true <;> simp [h]

/-- The post-reload last-sequence value, `none` on a load error. -/
def loadedSeq (r : Except DBError StState) : Option Nat :=
  match r with
  | Except.ok st => some st.lastSeq
  | Except.error _ => none

/-- A state checkpointed at sequence 3. -/
def s4a : StState :=
  save { pw := [112], salt := List.replicate 16 0, kdfB := [7], lastSeq := 3 }

/-- `s4a` after `begin_txn` (seq 4) and `rollback_txn` (seq 5): clean
(not dirty), but the WAL's only record is the ROLLBACK marker. -/
def s4b : StState := rollback_txn (begin_txn s4a [116]) [116]

/-- C4 counterexample: the last-sequence counter observed between two
operations decreases across a refresh — it is 5 before the refresh and 3
after, because the snapshot stores 3 and the trailing ROLLBACK record is
never fed to the apply callback. -/
theorem last_seq_refresh_counterexample :
    s4b.lastSeq = 5 ∧ s4b.dirty = false ∧
    loadedSeq (refreshSt s4b) = some 3 := by
  refine ⟨rfl, rfl, ?_⟩
  decide

/-- C8: after `save`, the WAL file is exactly a freshly written header,
the snapshot body's `seq` equals the in-memory last sequence, the dirty
flag is cleared, replay of the truncated WAL feeds nothing (count 0),
and a fresh open of the two files reads back exactly the saved state
solely from the snapshot. -/
theorem save_checkpoint_truncates_wal (s : StState)
    (hs : s.salt.length = 16) (hk : s.kdfB.length < 65536) :
    (save s).walFile = walHeader s.salt s.kdfB ∧
    (save s).data.seq = some s.lastSeq ∧
    (save s).dirty = false ∧
    replayCount (save s).key s.lastSeq (save s).walFile = 0 ∧
    loadSt { pw := s.pw, salt := s.salt, kdfB := s.kdfB,
             walFile := (save s).walFile, snapFile := (save s).snapFile } =
      Except.ok { pw := s.pw, salt := s.salt, kdfB := s.kdfB,
                  data := (save s).data, lastSeq := s.lastSeq,
                  walFile := (save s).walFile, snapFile := (save s).snapFile } := by
  have hreplay : replayFile (save s).key s.lastSeq (save s).walFile = [] := by
    show replayFile s.key s.lastSeq (walHeader s.salt s.kdfB) = []
    exact replayFile_header_only _ _ _ _ hs hk
  refine ⟨rfl, rfl, rfl, by rw [replayCount, hreplay]; rfl, ?_⟩
  have hsnap : ({ pw := s.pw, salt := s.salt, kdfB := s.kdfB,
                  walFile := (save s).walFile,
                  snapFile := (save s).snapFile } : StState).snapFile =
      some (snapHeader s.salt s.kdfB ++ (nonce0 ++
        (aeadEncrypt (deriveKey s.pw s.salt s.kdfB)
          (some (snapHeader s.salt s.kdfB))
          (zstdCompress (packData { s.data with seq := some s.lastSeq }))).2)) := by
    show (save s).snapFile = _
    simp [save, StState.key, List.append_assoc]
  rw [loadSt_parse _ s.salt s.kdfB _ hs hk hsnap]
  rw [show ({ pw := s.pw, salt := s.salt, kdfB := s.kdfB,
              walFile := (save s).walFile,
              snapFile := (save s).snapFile } : StState).pw = s.pw from rfl]
  have hreplay2 : replayFile (deriveKey s.pw s.salt s.kdfB)
      (({ s.data with seq := some s.lastSeq } : DBData).seq.getD 0)
      (({ pw := s.pw, salt := s.salt, kdfB := s.kdfB,
          walFile := (save s).walFile,
          snapFile := (save s).snapFile } : StState).walFile)
      = [] := by
    show replayFile (deriveKey s.pw s.salt s.kdfB) s.lastSeq (walHeader s.salt s.kdfB) = []
    exact replayFile_header_only _ _ _ _ hs hk
  simp only [aeadDecrypt_aeadEncrypt, Option.some_bind, zstdDecompress_zstdCompress,
    unpackData_packData, hreplay2]
  rfl

/-- A dirty state checkpointed at sequence 2, exercising C8
concretely. -/
def s8w : StState :=
  { pw := [112], salt := List.replicate 16 0, kdfB := [7], lastSeq := 2,
    dirty := true,
    data := { groups := [([103], [([100], [([97], Value.vint 5)])])] } }

theorem save_checkpoint_witness :
    (s8w.salt.length = 16 ∧ s8w.kdfB.length < 65536) ∧
    ((save s8w).walFile = walHeader s8w.salt s8w.kdfB ∧
     (save s8w).data.seq = some s8w.lastSeq ∧
     (save s8w).dirty = false ∧
     replayCount (save s8w).key s8w.lastSeq (save s8w).walFile = 0 ∧
     loadSt { pw := s8w.pw, salt := s8w.salt, kdfB := s8w.kdfB,
              walFile := (save s8w).walFile, snapFile := (save s8w).snapFile } =
       Except.ok { pw := s8w.pw, salt := s8w.salt, kdfB := s8w.kdfB,
                   data := (save s8w).data, lastSeq := s8w.lastSeq,
                   walFile := (save s8w).walFile,
                   snapFile := (save s8w).snapFile }) :=
  ⟨⟨by decide, by decide⟩,
    save_checkpoint_truncates_wal s8w (by decide) (by decide)⟩

instance {ε α : Type} [DecidableEq ε] [DecidableEq α] :
    DecidableEq (Except ε α)
  | Except.ok x, Except.ok y =>
    if h : x = y then isTrue (by rw [h])
    else isFalse (fun he => h (Except.ok.inj he))
  | Except.error x, Except.error y =>
    if h : x = y then isTrue (by rw [h])
    else isFalse (fun he => h (Except.error.inj he))
  | Except.ok x, Except.error y => isFalse (fun he => Except.noConfusion he)
  | Except.error x, Except.ok y => isFalse (fun he => Except.noConfusion he)

/-- The key-derivation stand-in is injective in the password (for fixed
salt and KDF parameters), as Argon2id is assumed to be. -/
theorem deriveKey_pw_injective (pw pw2 : Str) (salt kdfB : Bytes) (h : pw ≠ pw2) :
    deriveKey pw salt kdfB ≠ deriveKey pw2 salt kdfB := by
  intro he
  simp only [deriveKey, List.cons.injEq] at he
  obtain ⟨h1, h2⟩ := he
  exact h (List.append_inj_left h2 h1)

/-- A state saved at sequence 1 under password `p`, for the concrete
tampering scenario of C6. -/
def s6pre : StState :=
  { pw := [112], salt := List.replicate 16 0, kdfB := [7], lastSeq := 1 }

/-- The snapshot file written by `save s6pre`; its header (and AAD) is
the first 26 bytes. -/
def snap6 : Bytes := (save s6pre).snapFile.getD []

/-- The bytes of `(save s6pre).snapFile`, spelled out. -/
def snap6lit : Bytes := [72, 86, 80, 68, 66, 0, 2, 0, 0, 0, 0, 0, 0, 0, 0, 0, 0, 0, 0, 0, 0, 0, 0, 0, 1, 7, 0, 0, 0, 0, 0, 0, 0, 0, 0, 0, 0, 0, 20, 1, 112, 16, 0, 0, 0, 0, 0, 0, 0, 0, 0, 0, 0, 0, 0, 0, 0, 0, 7, 1, 26, 72, 86, 80, 68, 66, 0, 2, 0, 0, 0, 0, 0, 0, 0, 0, 0, 0, 0, 0, 0, 0, 0, 0, 0, 1, 7, 0, 0, 0, 0, 1, 1]

theorem snap6_eq : snap6 = snap6lit := by decide

/-- Replacing byte `i` of the concrete snapshot file by any other value
makes `load` fail. -/
def flipFails (i : Nat) : Prop :=
  ∀ b : Fin 256, (b : Nat) ≠ snap6lit.getD i 0 →
    loadSt { pw := s6pre.pw, salt := s6pre.salt, kdfB := s6pre.kdfB,
             snapFile := some (snap6lit.set i b) } =
      Except.error DBError.valueError

instance (i : Nat) : Decidable (flipFails i) := by
  unfold flipFails
  infer_instance

theorem c6flip0 : flipFails 0 := by decide

theorem c6flip1 : flipFails 1 := by decide

theorem c6flip2 : flipFails 2 := by decide

theorem c6flip3 : flipFails 3 := by decide

theorem c6flip4 : flipFails 4 := by decide

theorem c6flip5 : flipFails 5 := by decide

theorem c6flip6 : flipFails 6 := by decide

theorem c6flip7 : flipFails 7 := by decide

theorem c6flip8 : flipFails 8 := by decide

theorem c6flip9 : flipFails 9 := by decide

theorem c6flip10 : flipFails 10 := by decide

theorem c6flip11 : flipFails 11 := by decide

theorem c6flip12 : flipFails 12 := by decide

theorem c6flip13 : flipFails 13 := by decide

theorem c6flip14 : flipFails 14 := by decide

theorem c6flip15 : flipFails 15 := by decide

theorem c6flip16 : flipFails 16 := by decide

theorem c6flip17 : flipFails 17 := by decide

theorem c6flip18 : flipFails 18 := by decide

theorem c6flip19 : flipFails 19 := by decide

theorem c6flip20 : flipFails 20 := by decide

theorem c6flip21 : flipFails 21 := by decide

theorem c6flip22 : flipFails 22 := by decide

theorem c6flip23 : flipFails 23 := by decide

theorem c6flip24 : flipFails 24 := by decide

theorem c6flip25 : flipFails 25 := by decide

set_option maxHeartbeats 1000000 in
/-- C6: opening a v2 snapshot with a wrong password fails with the
`ValueError` of `load` (the file-derived key does not match the one the
ciphertext was produced under), and — concretely, on the snapshot
written by `save s6pre` — replacing any one of the 26 header bytes by
any other byte value makes `load` fail, because the AAD passed to
AES-GCM is the exact header byte sequence; the untampered file loads
back to sequence 1.  `load` writes no bytes, so the two files are what
they were. -/
theorem snapshot_load_rejects_wrong_password_and_tampering
    (s : StState) (pw2 : Str)
    (hs : s.salt.length = 16) (hk : s.kdfB.length < 65536) (hpw : pw2 ≠ s.pw) :
    loadSt { pw := pw2, salt := s.salt, kdfB := s.kdfB,
             walFile := (save s).walFile, snapFile := (save s).snapFile } =
      Except.error DBError.valueError ∧
    (∀ i : Fin 26, ∀ b : Fin 256, (b : Nat) ≠ snap6.getD i 0 →
      loadSt { pw := s6pre.pw, salt := s6pre.salt, kdfB := s6pre.kdfB,
               snapFile := some (snap6.set i b) } =
        Except.error DBError.valueError) ∧
    loadedSeq (loadSt { pw := s6pre.pw, salt := s6pre.salt, kdfB := s6pre.kdfB,
                        snapFile := some snap6 }) = some 1 := by
  refine ⟨?_, ?_, by decide⟩
  case refine_2 =>
    simp only [snap6_eq]
    intro i b hb
    fin_cases i
    exacts [c6flip0 b hb, c6flip1 b hb, c6flip2 b hb, c6flip3 b hb,
      c6flip4 b hb, c6flip5 b hb, c6flip6 b hb, c6flip7 b hb, c6flip8 b hb,
      c6flip9 b hb, c6flip10 b hb, c6flip11 b hb, c6flip12 b hb,
      c6flip13 b hb, c6flip14 b hb, c6flip15 b hb, c6flip16 b hb,
      c6flip17 b hb, c6flip18 b hb, c6flip19 b hb, c6flip20 b hb,
      c6flip21 b hb, c6flip22 b hb, c6flip23 b hb, c6flip24 b hb,
      c6flip25 b hb]
  have hsnap : ({ pw := pw2, salt := s.salt, kdfB := s.kdfB,
                  walFile := (save s).walFile,
                  snapFile := (save s).snapFile } : StState).snapFile =
      some (snapHeader s.salt s.kdfB ++ (nonce0 ++
        (aeadEncrypt (deriveKey s.pw s.salt s.kdfB)
          (some (snapHeader s.salt s.kdfB))
          (zstdCompress (packData { s.data with seq := some s.lastSeq }))).2)) := by
    show (save s).snapFile = _
    simp [save, StState.key, List.append_assoc]
  rw [loadSt_parse _ s.salt s.kdfB _ hs hk hsnap]
  rw [show ({ pw := pw2, salt := s.salt, kdfB := s.kdfB,
              walFile := (save s).walFile,
              snapFile := (save s).snapFile } : StState).pw = pw2 from rfl]
  rw [aeadDecrypt_wrong_key (deriveKey s.pw s.salt s.kdfB)
    (deriveKey pw2 s.salt s.kdfB) _ _ _ _
    (deriveKey_pw_injective s.pw pw2 s.salt s.kdfB (fun he => hpw he.symm))]
  rfl

theorem snapshot_load_rejects_witness :
    ((s6pre.salt.length = 16 ∧ s6pre.kdfB.length < 65536) ∧
      ([113] : Str) ≠ s6pre.pw) ∧
    (loadSt { pw := [113], salt := s6pre.salt, kdfB := s6pre.kdfB,
              walFile := (save s6pre).walFile,
              snapFile := (save s6pre).snapFile } =
        Except.error DBError.valueError ∧
     (∀ i : Fin 26, ∀ b : Fin 256, (b : Nat) ≠ snap6.getD i 0 →
       loadSt { pw := s6pre.pw, salt := s6pre.salt, kdfB := s6pre.kdfB,
                snapFile := some (snap6.set i b) } =
         Except.error DBError.valueError) ∧
     loadedSeq (loadSt { pw := s6pre.pw, salt := s6pre.salt, kdfB := s6pre.kdfB,
                         snapFile := some snap6 }) = some 1) :=
  ⟨⟨⟨by decide, by decide⟩, by decide⟩,
    snapshot_load_rejects_wrong_password_and_tampering s6pre [113]
      (by decide) (by decide) (by decide)⟩

/-! ## Group layer (`core.py`)

One `HVPGroup` bound to its storage: the group name plus the group's
in-memory index maps.  `_update_index` checks unique constraints first
(fail fast), then maintains the non-unique and unique maps.
-/

/-- `HVPGroup` step 1 of `_update_index` (core.py lines 85-93): does the
new document pass every unique constraint?  A falsy `new_doc` (absent or
empty) skips the check. -/
def checkUnique (uniq : List (Str × List (Value × Str)))
    (oldD newD : Option Doc) : Bool :=
  match newD with
  | none => true
  | some nd =>
    if nd = [] then true
    else
      uniq.all (fun fu =>
        let nv := pyGet nd fu.1
        let ov := match oldD with
          | some od => pyGet od fu.1
          | none => Value.vnull
        !(nv != Value.vnull && nv != ov && amem fu.2 nv))

/-- Step 2 of `_update_index` on one non-unique index map (lines
96-110): drop the doc id from the old value's bucket (deleting an
emptied bucket), then append it to the new value's bucket. -/
def updNIdx (did : Str) (oldD newD : Option Doc) (f : Str)
    (imap : List (Value × List Str)) : List (Value × List Str) :=
  let ov := match oldD with
    | some od => pyGet od f
    | none => Value.vnull
  let m1 :=
    match alookup imap ov with
    | some ids =>
      if ov ≠ Value.vnull ∧ did ∈ ids then
        let ids2 := ids.erase did
        if ids2 = [] then adel imap ov else aset imap ov ids2
      else imap
    | none => imap
  let nv := match newD with
    | some nd => pyGet nd f
    | none => Value.vnull
  if nv ≠ Value.vnull then aset m1 nv ((alookup m1 nv).getD [] ++ [did]) else m1

/-- Step 3 of `_update_index` on one unique index map (lines 113-124):
drop the old value's binding if it points to this doc, then bind the new
value. -/
def updUIdx (did : Str) (oldD newD : Option Doc) (f : Str)
    (umap : List (Value × Str)) : List (Value × Str) :=
  let ov := match oldD with
    | some od => pyGet od f
    | none => Value.vnull
  let m1 :=
    match alookup umap ov with
    | some j => if ov ≠ Value.vnull ∧ j = did then adel umap ov else umap
    | none => umap
  let nv := match newD with
    | some nd => pyGet nd f
    | none => Value.vnull
  if nv ≠ Value.vnull then aset m1 nv did else m1

/-- `HVPGroup._update_index` (lines 82-124): fail-fast unique check —
raising the Duplicate error before any map is touched — then the map
maintenance of steps 2 and 3. -/
def updIndex (gi : GIdx) (did : Str) (oldD newD : Option Doc) :
    Except DBError GIdx :=
  if checkUnique gi.uniq oldD newD then
    Except.ok { idx := gi.idx.map (fun p => (p.1, updNIdx did oldD newD p.1 p.2)),
                uniq := gi.uniq.map (fun p => (p.1, updUIdx did oldD newD p.1 p.2)) }
  else Except.error DBError.duplicateError

/-- Python `dict.update`: existing keys keep their position, new keys
are appended in update order. -/
def dictUpdate (d : Doc) (u : List (Str × Value)) : Doc :=
  u.foldl (fun acc kv => aset acc kv.1 kv.2) d

/-- `data["_id"]` read as a map key.  The engine only writes string ids;
a non-string id could not index `GData` and is modelled as `[]`. -/
def docIdOf (dd : Doc) : Str :=
  match alookup dd idKey with
  | some (Value.vstr s) => s
  | _ => []

instance : DecidableEq (Str × GIdx) := instDecidableEqProd

/-- One `HVPGroup` bound to its storage (`core.py` lines 13-30): the
shared storage state, the group name, and the group's in-memory index
maps. -/
structure GDB where
  st : StState
  name : Str
  gi : GIdx
deriving DecidableEq

/-- `HVPGroup._insert_mem` (lines 207-212): check constraints and update
indexes (may fail), then store the document and mark dirty. -/
def insert_mem (g : GDB) (dd : Doc) : Except DBError GDB :=
  match updIndex g.gi (docIdOf dd) none (some dd) with
  | Except.error e => Except.error e
  | Except.ok gi2 =>
    let gdata := (alookup g.st.data.groups g.name).getD []
    Except.ok { g with
                gi := gi2,
                st := { g.st with
                        dirty := true,
                        data := { g.st.data with
                                  groups := aset g.st.data.groups g.name
                                    (aset gdata (docIdOf dd) dd) } } }

/-- `HVPGroup._update_mem` (lines 252-265): validate indexes against the
merged state (without `_updated_at`), then merge the update into the
live document, stamp `_updated_at`, mark dirty; returns the updated
document. -/
def update_mem (g : GDB) (did : Str) (u : List (Str × Value)) (oldD : Doc) :
    Except DBError (GDB × Doc) :=
  match updIndex g.gi did (some oldD) (some (dictUpdate oldD u)) with
  | Except.error e => Except.error e
  | Except.ok gi2 =>
    let gdata := (alookup g.st.data.groups g.name).getD []
    match alookup gdata did with
    | none => Except.error DBError.keyError
    | some doc =>
      let doc2 := aset (dictUpdate doc u) updatedKey (Value.vint 0)
      Except.ok ({ g with
                   gi := gi2,
                   st := { g.st with
                           dirty := true,
                           data := { g.st.data with
                                     groups := aset g.st.data.groups g.name
                                       (aset gdata did doc2) } } }, doc2)

/-- `HVPGroup._restore_mem` (lines 267-274): revert the indexes from the
current document to the saved one, then put the saved document back. -/
def restore_mem (g : GDB) (did : Str) (oldD : Doc) : Except DBError GDB :=
  let gdata := (alookup g.st.data.groups g.name).getD []
  match updIndex g.gi did (alookup gdata did) (some oldD) with
  | Except.error e => Except.error e
  | Except.ok gi2 =>
    Except.ok { g with
                gi := gi2,
                st := { g.st with
                        dirty := true,
                        data := { g.st.data with
                                  groups := aset g.st.data.groups g.name
                                    (aset gdata did oldD) } } }

/-- `HVPGroup._delete_mem` (lines 310-314): update indexes (removal
never violates a unique constraint), delete the document, mark dirty. -/
def delete_mem (g : GDB) (did : Str) (doc : Doc) : Except DBError GDB :=
  match updIndex g.gi did (some doc) none with
  | Except.error e => Except.error e
  | Except.ok gi2 =>
    let gdata := (alookup g.st.data.groups g.name).getD []
    if amem gdata did then
      Except.ok { g with
                  gi := gi2,
                  st := { g.st with
                          dirty := true,
                          data := { g.st.data with
                                    groups := aset g.st.data.groups g.name
                                      (adel gdata did) } } }
    else Except.error DBError.keyError

/-- The document as stored by `HVPGroup.insert` (lines 216-219): a
fresh `_id` when absent, plus the `_created_at` stamp (modelled 0). -/
def insertDocOf (d0 : Doc) (freshId : Str) : Doc :=
  aset (if amem d0 idKey then d0 else aset d0 idKey (Value.vstr freshId))
    createdKey (Value.vint 0)

/-- `HVPGroup.insert` (lines 214-250).  `freshId` stands for the
`uuid.uuid4()` document id, `ctxTxn` for `db.current_txn` (an explicit
open transaction), `freshTxn` for the implicit transaction's id.  On an
exception the memory rollback of lines 242-245 runs, then the implicit
transaction (if any) is rolled back, and the error propagates; the
state at that moment is returned alongside the error.  (`_delete_mem`
cannot fail on the rollback path — the id was just checked present and
an index removal violates nothing — so its error branch is dead.) -/
def insertG (g : GDB) (d0 : Doc) (freshId : Str) (ctxTxn : Option Str)
    (freshTxn : Str) : GDB × Except DBError Doc :=
  let dd := insertDocOf d0 freshId
  let did := docIdOf dd
  let implicit := ctxTxn.isNone
  let tid := ctxTxn.getD freshTxn
  let g0 : GDB := if implicit then { g with st := begin_txn g.st tid } else g
  match insert_mem g0 dd with
  | Except.error e =>
    let gdata := (alookup g0.st.data.groups g0.name).getD []
    let g1 := if amem gdata did then
        (match delete_mem g0 did dd with
         | Except.ok x => x
         | Except.error _ => g0)
      else g0
    let g2 := if implicit then { g1 with st := rollback_txn g1.st tid } else g1
    (g2, Except.error e)
  | Except.ok gm =>
    let gm2 : GDB :=
      { gm with st := append_log gm.st opInsert gm.name did (some dd) tid none }
    let gm3 : GDB := if implicit then { gm2 with st := commit_txn gm2.st tid }
      else gm2
    (gm3, Except.ok dd)

/-- The document loop of `HVPGroup.update` (lines 288-298): per matched
document, update memory (tracking the before-image), then append the
DATA record; an index failure stops the loop with the error. -/
def updateLoop (g : GDB) (u : List (Str × Value)) (tid : Str)
    (mlog : List (Str × Doc)) (cnt : Nat) :
    List Doc → GDB × List (Str × Doc) × Nat × Option DBError
  | [] => (g, mlog, cnt, none)
  | doc :: rest =>
    let did := docIdOf doc
    match update_mem g did u doc with
    | Except.error e => (g, mlog, cnt, some e)
    | Except.ok (g2, doc2) =>
      let g3 : GDB :=
        { g2 with st := append_log g2.st opUpdate g2.name did (some doc2) tid
                          (some doc) }
      updateLoop g3 u tid (mlog ++ [(did, doc)]) (cnt + 1) rest

/-- The memory-rollback loop of `HVPGroup.update` (lines 303-305),
applied to the reversed modification log.  (`_restore_mem` errors cannot
occur in the modelled scenarios; the error branch keeps the state.) -/
def restoreLoop (g : GDB) : List (Str × Doc) → GDB
  | [] => g
  | (did, od) :: rest =>
    restoreLoop
      (match restore_mem g did od with
       | Except.ok x => x
       | Except.error _ => g) rest

/-- `HVPGroup.update` (lines 276-308): find the matching documents —
returning 0 with no further effect when there are none — then begin a
transaction, update each document, and commit; on an error, restore the
modified documents in reverse order and roll the transaction back. -/
def updateG (g : GDB) (q : List (Str × Value)) (u : List (Str × Value))
    (freshTxn : Str) : GDB × Except DBError Nat :=
  let docs := findG g.st.data.groups g.gi g.name q
  if docs = [] then (g, Except.ok 0)
  else
    let g0 : GDB := { g with st := begin_txn g.st freshTxn }
    match updateLoop g0 u freshTxn [] 0 docs with
    | (g1, _, cnt, none) =>
      ({ g1 with st := commit_txn g1.st freshTxn }, Except.ok cnt)
    | (g1, mlog, _, some e) =>
      let g2 := restoreLoop g1 mlog.reverse
      ({ g2 with st := rollback_txn g2.st freshTxn }, Except.error e)

/-- The document loop of `HVPGroup.delete` (lines 328-338). -/
def deleteLoop (g : GDB) (tid : Str) (dlog : List (Str × Doc)) (cnt : Nat) :
    List Doc → GDB × List (Str × Doc) × Nat × Option DBError
  | [] => (g, dlog, cnt, none)
  | doc :: rest =>
    let did := docIdOf doc
    match delete_mem g did doc with
    | Except.error e => (g, dlog, cnt, some e)
    | Except.ok g2 =>
      let g3 : GDB :=
        { g2 with st := append_log g2.st opDelete g2.name did (some doc) tid
                          (some doc) }
      deleteLoop g3 tid (dlog ++ [(did, doc)]) (cnt + 1) rest

/-- The memory-rollback loop of `HVPGroup.delete` (lines 343-348):
re-insert the deleted documents in reverse order via `_insert_mem`. -/
def reinsertLoop (g : GDB) : List (Str × Doc) → GDB
  | [] => g
  | (_, dd) :: rest =>
    reinsertLoop
      (match insert_mem g dd with
       | Except.ok x => x
       | Except.error _ => g) rest

/-- `HVPGroup.delete` (lines 316-351), mirroring `update`. -/
def deleteG (g : GDB) (q : List (Str × Value)) (freshTxn : Str) :
    GDB × Except DBError Nat :=
  let docs := findG g.st.data.groups g.gi g.name q
  if docs = [] then (g, Except.ok 0)
  else
    let g0 : GDB := { g with st := begin_txn g.st freshTxn }
    match deleteLoop g0 freshTxn [] 0 docs with
    | (g1, _, cnt, none) =>
      ({ g1 with st := commit_txn g1.st freshTxn }, Except.ok cnt)
    | (g1, dlog, _, some e) =>
      let g2 := reinsertLoop g1 dlog.reverse
      ({ g2 with st := rollback_txn g2.st freshTxn }, Except.error e)

/-! ## Opening the database (`core.py` `HVPGroup.__init__`,
`HVPDB.__init__`) and the scoped transaction (`transaction.py`) -/

/-- `create_index` population of a non-unique index from the group's
documents (core.py lines 67-74). -/
def buildNIdx (gdata : GData) (f : Str) : List (Value × List Str) :=
  gdata.foldl (fun m p =>
    let v := pyGet p.2 f
    if v ≠ Value.vnull then aset m v ((alookup m v).getD [] ++ [p.1]) else m) []

/-- `create_index` population of a unique index (lines 57-63); `none`
models the `ValueError` raised on a duplicate value. -/
def buildUIdx (gdata : GData) (f : Str) : Option (List (Value × Str)) :=
  gdata.foldl (fun acc p =>
    match acc with
    | none => none
    | some m =>
      let v := pyGet p.2 f
      if v ≠ Value.vnull then
        if amem m v then none else some (aset m v p.1)
      else some m) (some [])

/-- `_rebuild_indexes` (lines 32-49): replay the persisted index
definitions in order through `create_index` (which skips a field that
is already indexed). -/
def buildGIdxDefs (gdata : GData) : List (Str × Bool) → GIdx → Except DBError GIdx
  | [], gi => Except.ok gi
  | (f, u) :: rest, gi =>
    if u then
      if amem gi.uniq f then buildGIdxDefs gdata rest gi
      else
        match buildUIdx gdata f with
        | none => Except.error DBError.valueError
        | some m => buildGIdxDefs gdata rest { gi with uniq := gi.uniq ++ [(f, m)] }
    else
      if amem gi.idx f then buildGIdxDefs gdata rest gi
      else buildGIdxDefs gdata rest { gi with idx := gi.idx ++ [(f, buildNIdx gdata f)] }

/-- `HVPGroup.__init__` (lines 13-30): bind a group to the storage,
ensure the group's dict and the `_indexes` table exist (without marking
dirty), and rebuild the in-memory indexes from the stored
definitions. -/
def mkGroup (st : StState) (name : Str) : Except DBError GDB :=
  let groups2 := if amem st.data.groups name then st.data.groups
                 else aset st.data.groups name []
  let ind := st.data.indexes.getD []
  let st2 : StState :=
    { st with data := { st.data with groups := groups2, indexes := some ind } }
  let gdata := (alookup groups2 name).getD []
  match alookup ind name with
  | none => Except.ok ⟨st2, name, {}⟩
  | some defs =>
    match buildGIdxDefs gdata defs {} with
    | Except.error e => Except.error e
    | Except.ok gi => Except.ok ⟨st2, name, gi⟩

/-- The user name `root`. -/
def rootName : Str := [114, 111, 111, 116]

/-- The default root user record of `_create_root_user` (core.py lines
526-538), timestamps modelled as 0. -/
def rootDoc : Doc :=
  [([114, 111, 108, 101], Value.vstr [97, 100, 109, 105, 110]),
   ([103, 114, 111, 117, 112, 115],
     Value.varr (ValueList.cons (Value.vstr [42]) ValueList.nil)),
   ([99, 114, 101, 97, 116, 101, 100, 95, 97, 116], Value.vint 0)]

/-- `HVPDB.__init__` lines 433-436: ensure the `users` table, creating
the root user (and marking dirty) on first open. -/
def usersInit (st : StState) : StState :=
  match st.data.users with
  | some _ => st
  | none =>
    { st with dirty := true,
              data := { st.data with users := some [(rootName, rootDoc)] } }

/-- Opening the database at a path (`HVPDB.__init__` for a single-file
db): load the storage from the two files' bytes, then ensure the
`users` table.  A fresh `HVPStorage` has no security context; `salt0`
and `kdfB0` stand for the one `_init_security` would create, and are
replaced by the file's own salt and KDF bytes when a snapshot exists.
(The constructor also instantiates an `HVPGroup` per stored group; the
per-group effects are those of `mkGroup`, applied when a group is
used.) -/
def openDB (pw : Str) (salt0 kdfB0 : Bytes) (walFile : Bytes)
    (snapFile : Option Bytes) : Except DBError StState :=
  match loadSt { pw := pw, salt := salt0, kdfB := kdfB0,
                 walFile := walFile, snapFile := snapFile } with
  | Except.error e => Except.error e
  | Except.ok st => Except.ok (usersInit st)

/-- `HVPTransaction.__exit__` on an in-scope exception →
`HVPTransaction.rollback` (transaction.py lines 127-141): roll back the
storage transaction, then `db.refresh()` — which raises `RuntimeError`
when the state is dirty, leaving memory as it was after the rollback
call.  On success the group is rebound via `mkGroup` (index rebuild). -/
def txnRollback (g : GDB) (tid : Str) : GDB × Option DBError :=
  let g1 : GDB := { g with st := rollback_txn g.st tid }
  match refreshSt g1.st with
  | Except.error e => (g1, some e)
  | Except.ok st2 =>
    match mkGroup st2 g1.name with
    | Except.error e => (g1, some e)
    | Except.ok g2 => (g2, none)

/-- C10: when the query matches no document, `update` and `delete`
return 0 and the state is exactly what it was — no transaction is
begun, no sequence number is consumed, no WAL bytes are written, and
the documents, indexes and dirty flag are untouched. -/
theorem no_match_update_delete_noop (g : GDB) (q u : List (Str × Value))
    (t1 t2 : Str) (h : findG g.st.data.groups g.gi g.name q = []) :
    updateG g q u t1 = (g, Except.ok 0) ∧
    deleteG g q t2 = (g, Except.ok 0) := by
  constructor <;> simp [updateG, deleteG, h]

/-- A one-document group with no indexes, for the C10 witness. -/
def g10 : GDB :=
  ⟨{ pw := [112], salt := List.replicate 16 0, kdfB := [7],
     data := { groups := [([103], [([100], [([97], Value.vint 1)])])] } },
   [103], {}⟩

theorem no_match_noop_witness :
    findG g10.st.data.groups g10.gi g10.name [([97], Value.vint 2)] = [] ∧
    (updateG g10 [([97], Value.vint 2)] [([97], Value.vint 9)] [116] =
        (g10, Except.ok 0) ∧
     deleteG g10 [([97], Value.vint 2)] [117] = (g10, Except.ok 0)) :=
  ⟨by decide,
    no_match_update_delete_noop g10 [([97], Value.vint 2)]
      [([97], Value.vint 9)] [116] [117] (by decide)⟩

theorem adel_aset_not_mem {κ α : Type} [DecidableEq κ]
    (l : List (κ × α)) (k : κ) (v : α) (h : amem l k = false) :
    adel (aset l k v) k = l := by
  induction l with
  | nil => simp [aset, adel]
  | cons hd tl ih =>
    obtain ⟨k0, v0⟩ := hd
    have hk : k0 ≠ k := by
      intro he
      simp [amem, alookup, he] at h
    have htl : amem tl k = false := by
      simpa [amem, alookup, hk] using h
    simp [aset, adel, hk, ih htl]

/-- C2 (amended): an insert whose document would duplicate a
unique-indexed value fails with the Duplicate error raised by the
fail-fast check of `_update_index`, before any document or index map is
touched; and an update whose first matched document would duplicate a
unique value likewise fails with memory fully restored.  Under an
explicit transaction the state is exactly unchanged.  Under the
operation's own implicit transaction, documents, indexes, buffers and
the dirty flag are unchanged, but two sequence numbers are consumed and
one ROLLBACK audit record is appended to the WAL — the WAL byte length
does change, contrary to the frozen claim; no record of the failed data
is written. -/
theorem unique_duplicate_fail_fast (g : GDB) (d0 : Doc) (q u : List (Str × Value))
    (doc : Doc) (rest : List Doc) (fid ftxn tid : Str)
    (hdup : checkUnique g.gi.uniq none (some (insertDocOf d0 fid)) = false)
    (hfresh : amem ((alookup g.st.data.groups g.name).getD [])
      (docIdOf (insertDocOf d0 fid)) = false)
    (hbuf : amem g.st.txnBuffers ftxn = false)
    (hfind : findG g.st.data.groups g.gi g.name q = doc :: rest)
    (hdup2 : checkUnique g.gi.uniq (some doc) (some (dictUpdate doc u)) = false) :
    insertG g d0 fid (some tid) ftxn = (g, Except.error DBError.duplicateError) ∧
    ((insertG g d0 fid none ftxn).2 = Except.error DBError.duplicateError ∧
     (insertG g d0 fid none ftxn).1.gi = g.gi ∧
     (insertG g d0 fid none ftxn).1.st.data = g.st.data ∧
     (insertG g d0 fid none ftxn).1.st.dirty = g.st.dirty ∧
     (insertG g d0 fid none ftxn).1.st.txnBuffers = g.st.txnBuffers ∧
     (insertG g d0 fid none ftxn).1.st.lastSeq = g.st.lastSeq + 2 ∧
     (insertG g d0 fid none ftxn).1.st.walFile =
       walEnsureHeader g.st.salt g.st.kdfB g.st.walFile ++
         encFrame g.st.key
           { seq := some (g.st.lastSeq + 2), txn := some ftxn,
             type := some tyROLLBACK }) ∧
    ((updateG g q u ftxn).2 = Except.error DBError.duplicateError ∧
     (updateG g q u ftxn).1.gi = g.gi ∧
     (updateG g q u ftxn).1.st.data = g.st.data ∧
     (updateG g q u ftxn).1.st.dirty = g.st.dirty ∧
     (updateG g q u ftxn).1.st.txnBuffers = g.st.txnBuffers ∧
     (updateG g q u ftxn).1.st.lastSeq = g.st.lastSeq + 2 ∧
     (updateG g q u ftxn).1.st.walFile =
       walEnsureHeader g.st.salt g.st.kdfB g.st.walFile ++
         encFrame g.st.key
           { seq := some (g.st.lastSeq + 2), txn := some ftxn,
             type := some tyROLLBACK }) := by
  have hins : ∀ gx : GDB, gx.gi = g.gi →
      insert_mem gx (insertDocOf d0 fid) = Except.error DBError.duplicateError := by
    intro gx hgx
    unfold insert_mem updIndex
    rw [hgx, hdup]
    rfl
  refine ⟨?_, ?_, ?_⟩
  · unfold insertG
    simp only [Option.isNone_some, Bool.false_eq_true, if_false, Option.getD_some]
    rw [hins g rfl]
    simp only [hfresh, Bool.false_eq_true, if_false]
  · unfold insertG
    simp only [Option.isNone_none, if_true, Option.getD_none,
      hins { g with st := begin_txn g.st ftxn } rfl]
    rw [show ({ g with st := begin_txn g.st ftxn } : GDB).st.data.groups =
        g.st.data.groups from rfl]
    simp only [hfresh, Bool.false_eq_true, if_false, if_true]
    refine ⟨?_, ?_, ?_, ?_, ?_, ?_, ?_⟩ <;>
      first
        | rfl
        | trivial
        | exact adel_aset_not_mem _ _ _ hbuf
  · have hupd : update_mem { g with st := begin_txn g.st ftxn } (docIdOf doc) u doc =
        Except.error DBError.duplicateError := by
      unfold update_mem updIndex
      rw [show ({ g with st := begin_txn g.st ftxn } : GDB).gi = g.gi from rfl, hdup2]
      rfl
    unfold updateG
    rw [hfind]
    rw [if_neg (by simp)]
    simp only [updateLoop, hupd]
    simp only [List.reverse_nil, restoreLoop]
    refine ⟨?_, ?_, ?_, ?_, ?_, ?_, ?_⟩ <;>
      first
        | rfl
        | trivial
        | exact adel_aset_not_mem _ _ _ hbuf

/-- Document `d` with unique-indexed field `u = 1`. -/
def docA : Doc := [(idKey, Value.vstr [100]), ([117], Value.vint 1)]

/-- Document `b` with unique-indexed field `u = 2`. -/
def docB : Doc := [(idKey, Value.vstr [98]), ([117], Value.vint 2)]

/-- A group with two documents and a unique index on field `u`. -/
def g2cx : GDB :=
  ⟨{ pw := [112], salt := List.replicate 16 0, kdfB := [7],
     data := { groups := [([103], [([100], docA), ([98], docB)])] } },
   [103],
   { uniq := [([117], [(Value.vint 1, [100]), (Value.vint 2, [98])])] }⟩

/-- C2 counterexample: a duplicate-value insert under the implicit
transaction fails with the Duplicate error and leaves the documents
untouched, but the WAL file's byte length does change — a ROLLBACK
audit record is appended — refuting `the WAL file's byte length is
unchanged (no record of any kind was appended)`. -/
theorem unique_duplicate_wal_grows_counterexample :
    (insertG g2cx [([117], Value.vint 1)] [101] none [116]).2 =
      Except.error DBError.duplicateError ∧
    (insertG g2cx [([117], Value.vint 1)] [101] none [116]).1.st.data =
      g2cx.st.data ∧
    (insertG g2cx [([117], Value.vint 1)] [101] none [116]).1.st.walFile.length ≠
      g2cx.st.walFile.length := by
  refine ⟨by decide, by decide, by decide⟩

theorem unique_duplicate_witness :
    (checkUnique g2cx.gi.uniq none
        (some (insertDocOf [([117], Value.vint 1)] [101])) = false ∧
     amem ((alookup g2cx.st.data.groups g2cx.name).getD [])
       (docIdOf (insertDocOf [([117], Value.vint 1)] [101])) = false ∧
     amem g2cx.st.txnBuffers [116] = false ∧
     findG g2cx.st.data.groups g2cx.gi g2cx.name [([117], Value.vint 2)] =
       docB :: [] ∧
     checkUnique g2cx.gi.uniq (some docB)
       (some (dictUpdate docB [([117], Value.vint 1)])) = false) ∧
    insertG g2cx [([117], Value.vint 1)] [101] (some [115]) [116] =
      (g2cx, Except.error DBError.duplicateError) :=
  ⟨⟨by decide, by decide, by decide, by decide, by decide⟩,
    (unique_duplicate_fail_fast g2cx [([117], Value.vint 1)]
      [([117], Value.vint 2)] [([117], Value.vint 1)] docB [] [101] [116] [115]
      (by decide) (by decide) (by decide) (by decide) (by decide)).1⟩

/-- The group name `bank` of scenario S2. -/
def bank : Str := [98, 97, 110, 107]

/-- The pre-committed document of scenario S2. -/
def initialDoc3 : Doc :=
  [(idKey, Value.vstr [49]), ([97], Value.vstr [73]), ([98], Value.vint 0)]

/-- The document inserted inside the failing transaction scope. -/
def badDoc3 : Doc := [([97], Value.vstr [66]), ([98], Value.vint (-100))]

/-- The committed pre-transaction state: one document in `bank`, saved
(snapshot on disk, WAL truncated, dirty flag clear). -/
def st3 : StState :=
  save { pw := [112], salt := List.replicate 16 0, kdfB := [7], lastSeq := 1,
         data := { groups := [(bank, [([49], initialDoc3)])] } }

/-- The `bank` group after `HVPTransaction.__enter__`
(`storage.begin_txn`). -/
def g3txn : GDB := { st := begin_txn st3 [116], name := bank, gi := {} }

/-- The group after `grp.insert(badDoc3)` ran inside the transaction
scope (explicit transaction: memory updated, DATA record buffered). -/
def g3ins : GDB := (insertG g3txn badDoc3 [50] (some [116]) [99]).1

/-- C3 is a code bug: in scenario S2, the committed state shows exactly
the `Initial` document, the in-scope insert succeeds (memory updated,
dirty set), but the scoped rollback triggered by the in-scope error
raises a further `RuntimeError` — `HVPTransaction.rollback` calls
`db.refresh()`, which refuses to run on a dirty state — and the
observable state afterwards still contains the `Bad` document, so
`find({})` returns two documents instead of the pre-transaction one.
The repository's own `test_transaction_rollback` (src/tests/test_core.py
lines 49-60) fails on exactly this path. -/
theorem alookup_cons_self {κ α : Type} [DecidableEq κ]
    (k : κ) (v : α) (t : List (κ × α)) : alookup ((k, v) :: t) k = some v := by
  simp [alookup]

theorem aset_cons_self {κ α : Type} [DecidableEq κ]
    (k : κ) (v w : α) (t : List (κ × α)) : aset ((k, v) :: t) k w = (k, w) :: t := by
  simp [aset]

theorem adel_cons_self {κ α : Type} [DecidableEq κ]
    (k : κ) (v : α) (t : List (κ × α)) : adel ((k, v) :: t) k = t := by
  simp [adel]

theorem amem_cons_self {κ α : Type} [DecidableEq κ]
    (k : κ) (v : α) (t : List (κ × α)) : amem ((k, v) :: t) k = true := by
  simp [amem, alookup]

/-- `HVPDB.commit` (core.py lines 645-653): save iff dirty. -/
def commitDB (st : StState) : StState := if st.dirty then save st else st

/-- The round-trip scenario: open a fresh database at an empty path,
bind group `G`, `insert(D)`, `commit()` then `close()` (whose own commit
is a no-op on the now-clean state), reopen from the written files,
rebind `G`, and run `find({_id: r._id})`; `none` if any step fails. -/
def roundtripFind (pw G fid ftxn : Str) (salt kdfB : Bytes) (D : Doc) :
    Option (List Doc) :=
  (openDB pw salt kdfB [] none).toOption.bind (fun st1 =>
  (mkGroup st1 G).toOption.bind (fun g0 =>
    let r := insertG g0 D fid none ftxn
    r.2.toOption.bind (fun dd =>
      let st4 := commitDB (commitDB r.1.st)
      (openDB pw salt kdfB st4.walFile st4.snapFile).toOption.bind (fun st5 =>
      (mkGroup st5 G).toOption.map (fun g5 =>
        findG g5.st.data.groups g5.gi g5.name [(idKey, pyGet dd idKey)])))))

theorem scoped_rollback_runtime_error :
    findG st3.data.groups ({} : GIdx) bank [] = [initialDoc3] ∧
    st3.dirty = false ∧
    (insertG g3txn badDoc3 [50] (some [116]) [99]).2 =
      Except.ok (insertDocOf badDoc3 [50]) ∧
    g3ins.st.dirty = true ∧
    (txnRollback g3ins [116]).2 = some DBError.runtimeError ∧
    findG (txnRollback g3ins [116]).1.st.data.groups
        (txnRollback g3ins [116]).1.gi bank [] =
      [initialDoc3, insertDocOf badDoc3 [50]] ∧
    [initialDoc3, insertDocOf badDoc3 [50]] ≠ [initialDoc3] := by
  refine ⟨by decide, by decide, by decide, by decide, by decide, by decide,
    by decide⟩

/-- C7: for every group `G` and document `D` without an `_id`, inserting
`D` (which returns `D` extended with the fresh `_id` and the
`_created_at` stamp), committing, closing, reopening the database from
the written snapshot and WAL bytes with the same password, and querying
`find({_id: r._id})` on `G` yields exactly the one inserted document —
through snapshot encryption, compression, serialisation and WAL
truncation — and its fields other than `_id`/`_created_at` are exactly
`D`'s. -/
theorem insert_roundtrip_finds_doc (pw G fid ftxn : Str) (salt kdfB : Bytes)
    (D : Doc) (hs : salt.length = 16) (hk : kdfB.length < 65536)
    (hD : amem D idKey = false) :
    roundtripFind pw G fid ftxn salt kdfB D = some [insertDocOf D fid] ∧
    (∀ k, k ≠ idKey → k ≠ createdKey →
      alookup (insertDocOf D fid) k = alookup D k) := by
  have hlook : alookup (insertDocOf D fid) idKey = some (Value.vstr fid) := by
    unfold insertDocOf
    simp only [hD, Bool.false_eq_true, if_false]
    rw [alookup_aset_ne _ _ _ _ (by decide), alookup_aset_self]
  have hpg : pyGet (insertDocOf D fid) idKey = Value.vstr fid := by
    rw [pyGet, hlook]; rfl
  have hdid : docIdOf (insertDocOf D fid) = fid := by
    unfold docIdOf
    rw [hlook]
  constructor
  · have h1 : openDB pw salt kdfB [] none = Except.ok
        ⟨pw, salt, kdfB, ⟨[], none, some [(rootName, rootDoc)], none⟩,
         true, 0, [], [], none⟩ := rfl
    have h2 : mkGroup
        (⟨pw, salt, kdfB, ⟨[], none, some [(rootName, rootDoc)], none⟩,
          true, 0, [], [], none⟩ : StState) G = Except.ok
        ⟨⟨pw, salt, kdfB, ⟨[(G, [])], some [], some [(rootName, rootDoc)], none⟩,
          true, 0, [], [], none⟩, G, {}⟩ := rfl
    have hchk : checkUnique ([] : List (Str × List (Value × Str))) none
        (some (insertDocOf D fid)) = true := by
      unfold checkUnique
      simp
    have hmem : insert_mem
        (⟨⟨pw, salt, kdfB, ⟨[(G, [])], some [], some [(rootName, rootDoc)], none⟩,
           true, 1, [(ftxn, [⟨some 1, some ftxn, some tyBEGIN, none, none, none,
             none, none, 0⟩])], [], none⟩, G, {}⟩ : GDB) (insertDocOf D fid) =
        Except.ok
        ⟨⟨pw, salt, kdfB, ⟨[(G, [(fid, insertDocOf D fid)])], some [],
           some [(rootName, rootDoc)], none⟩,
          true, 1, [(ftxn, [⟨some 1, some ftxn, some tyBEGIN, none, none, none,
            none, none, 0⟩])], [], none⟩, G, {}⟩ := by
      unfold insert_mem updIndex
      rw [show (⟨⟨pw, salt, kdfB, ⟨[(G, [])], some [], some [(rootName, rootDoc)],
          none⟩, true, 1, [(ftxn, [⟨some 1, some ftxn, some tyBEGIN, none, none,
          none, none, none, 0⟩])], [], none⟩, G, {}⟩ : GDB).gi = ({} : GIdx)
          from rfl, hchk]
      rw [hdid]
      simp only [if_true]
      rw [alookup_cons_self, aset_cons_self]
      rfl
    have h3 : insertG
        (⟨⟨pw, salt, kdfB, ⟨[(G, [])], some [], some [(rootName, rootDoc)], none⟩,
           true, 0, [], [], none⟩, G, {}⟩ : GDB) D fid none ftxn =
        (⟨⟨pw, salt, kdfB, ⟨[(G, [(fid, insertDocOf D fid)])], some [],
            some [(rootName, rootDoc)], none⟩,
           true, 3, [],
           walHeader salt kdfB ++
             (encFrame (deriveKey pw salt kdfB)
                ⟨some 1, some ftxn, some tyBEGIN, none, none, none, none,
                  none, 0⟩ ++
              (encFrame (deriveKey pw salt kdfB)
                ⟨some 2, some ftxn, some tyDATA, some opInsert, some G, some fid,
                  some (insertDocOf D fid), none, 0⟩ ++
               (encFrame (deriveKey pw salt kdfB)
                  ⟨some 3, some ftxn, some tyCOMMIT, none, none, none, none,
                    none, 0⟩ ++ []))),
           none⟩, G, {}⟩, Except.ok (insertDocOf D fid)) := by
      simp only [insertG, begin_txn, Option.isNone_none, Option.getD_none,
        if_true, aset, Nat.reduceAdd]
      rw [hmem]
      simp only [append_log, commit_txn, walWriteBatch, walEnsureHeader,
        StState.key, amem_cons_self, if_true, alookup_cons_self,
        Option.getD_some, aset_cons_self, adel_cons_self, List.map,
        List.flatten, List.length_nil, List.cons_append, List.nil_append,
        hdid, reduceCtorEq, if_false, Nat.reduceAdd]
    have h4 : ∀ w : Bytes, commitDB (commitDB
        (⟨pw, salt, kdfB, ⟨[(G, [(fid, insertDocOf D fid)])], some [],
           some [(rootName, rootDoc)], none⟩, true, 3, [], w, none⟩ : StState)) =
        ⟨pw, salt, kdfB, ⟨[(G, [(fid, insertDocOf D fid)])], some [],
           some [(rootName, rootDoc)], some 3⟩, false, 3, [],
         walHeader salt kdfB,
         some (snapHeader salt kdfB ++ nonce0 ++
           (aeadEncrypt (deriveKey pw salt kdfB) (some (snapHeader salt kdfB))
             (zstdCompress (packData ⟨[(G, [(fid, insertDocOf D fid)])],
               some [], some [(rootName, rootDoc)], some 3⟩))).2)⟩ :=
      fun w => rfl
    have h5 : openDB pw salt kdfB (walHeader salt kdfB)
        (some (snapHeader salt kdfB ++ nonce0 ++
          (aeadEncrypt (deriveKey pw salt kdfB) (some (snapHeader salt kdfB))
            (zstdCompress (packData ⟨[(G, [(fid, insertDocOf D fid)])],
              some [], some [(rootName, rootDoc)], some 3⟩))).2)) =
        Except.ok
        ⟨pw, salt, kdfB, ⟨[(G, [(fid, insertDocOf D fid)])], some [],
           some [(rootName, rootDoc)], some 3⟩, false, 3, [],
         walHeader salt kdfB,
         some (snapHeader salt kdfB ++ nonce0 ++
           (aeadEncrypt (deriveKey pw salt kdfB) (some (snapHeader salt kdfB))
             (zstdCompress (packData ⟨[(G, [(fid, insertDocOf D fid)])],
               some [], some [(rootName, rootDoc)], some 3⟩))).2)⟩ := by
      unfold openDB
      rw [loadSt_parse _ salt kdfB
        ((aeadEncrypt (deriveKey pw salt kdfB) (some (snapHeader salt kdfB))
          (zstdCompress (packData ⟨[(G, [(fid, insertDocOf D fid)])], some [],
            some [(rootName, rootDoc)], some 3⟩))).2)
        hs hk (by simp [List.append_assoc])]
      simp only [aeadDecrypt_aeadEncrypt, Option.some_bind,
        zstdDecompress_zstdCompress, unpackData_packData, Option.getD_some,
        replayFile_header_only _ _ salt kdfB hs hk, List.length_nil,
        Nat.lt_irrefl, if_false, usersInit, applyEntries]
    have h6 : mkGroup
        (⟨pw, salt, kdfB, ⟨[(G, [(fid, insertDocOf D fid)])], some [],
            some [(rootName, rootDoc)], some 3⟩, false, 3, [],
          walHeader salt kdfB,
          some (snapHeader salt kdfB ++ nonce0 ++
            (aeadEncrypt (deriveKey pw salt kdfB) (some (snapHeader salt kdfB))
              (zstdCompress (packData ⟨[(G, [(fid, insertDocOf D fid)])],
                some [], some [(rootName, rootDoc)], some 3⟩))).2)⟩ : StState)
        G = Except.ok
        ⟨⟨pw, salt, kdfB, ⟨[(G, [(fid, insertDocOf D fid)])], some [],
            some [(rootName, rootDoc)], some 3⟩, false, 3, [],
          walHeader salt kdfB,
          some (snapHeader salt kdfB ++ nonce0 ++
            (aeadEncrypt (deriveKey pw salt kdfB) (some (snapHeader salt kdfB))
              (zstdCompress (packData ⟨[(G, [(fid, insertDocOf D fid)])],
                some [], some [(rootName, rootDoc)], some 3⟩))).2)⟩,
         G, {}⟩ := by
      unfold mkGroup
      simp only [amem_cons_self, if_true, Option.getD_some, alookup]
    unfold roundtripFind
    rw [h1]
    simp only [Except.toOption, Option.some_bind]
    rw [h2]
    simp only [Except.toOption, Option.some_bind]
    rw [h3]
    simp only [Except.toOption, Option.some_bind]
    rw [h4]
    rw [h5]
    simp only [Except.toOption, Option.some_bind]
    rw [h6]
    simp only [Except.toOption, Option.map_some]
    rw [hpg]
    simp [findG, alookup_cons_self, firstUnique, collectIndexed, alookup,
      matchesQ, hpg]
  · intro k hk1 hk2
    unfold insertDocOf
    simp only [hD, Bool.false_eq_true, if_false]
    rw [alookup_aset_ne _ _ _ _ (fun he => hk2 he.symm),
      alookup_aset_ne _ _ _ _ (fun he => hk1 he.symm)]

theorem insert_roundtrip_witness :
    ((List.replicate 16 0 : Bytes).length = 16 ∧
      ([7] : Bytes).length < 65536 ∧
      amem ([([97], Value.vint 5)] : Doc) idKey = false) ∧
    (roundtripFind [112] [103] [105] [116] (List.replicate 16 0) [7]
        [([97], Value.vint 5)] =
      some [insertDocOf [([97], Value.vint 5)] [105]] ∧
     (∀ k, k ≠ idKey → k ≠ createdKey →
       alookup (insertDocOf [([97], Value.vint 5)] [105]) k =
         alookup [([97], Value.vint 5)] k)) :=
  ⟨⟨by decide, by decide, by decide⟩,
    insert_roundtrip_finds_doc [112] [103] [105] [116] (List.replicate 16 0)
      [7] [([97], Value.vint 5)] (by decide) (by decide) (by decide)⟩

end HVPDB
